import Mathlib

/-!
# djusb: chunked AEAD codec, pipeline runner and stages

A shallow embedding of the Go sources of `djusb` (`internal/plugins/gcm_stream.go`,
`internal/pipeline/runner.go`, and the stage files) together with theorems about them.

Conventions of the embedding:
* a byte string (`[]byte`) is a `List Nat`; encoders only ever produce values below 256;
* a Go `error` is a value of `Err`; a `nil` error is `none`;
* mutable receivers (`*gcmWriter`, `*gcmReader`, `*Context`) become explicit state passing:
  every method returns the state it leaves behind, also on the error paths;
* library primitives the repository calls but does not define (`cipher.AEAD`, `gzip`,
  `sha256`) are parameters.
-/

namespace Djusb

/-- Byte strings. -/
abbrev Bytes := List Nat

/-- Go `error` values that occur in the modelled code. -/
inductive Err where
  /-- The value `io.EOF`. -/
  | eof
  /-- The value `io.ErrUnexpectedEOF`. -/
  | unexpectedEOF
  /-- The value `errors.New("chunk too large")` of `gcmWriter.Write`. -/
  | chunkTooLarge
  /-- The error returned by `cipher.AEAD.Open` (authentication failure). -/
  | auth
  /-- An I/O error of the underlying sink or file system. -/
  | io
  /-- The value `gzip.ErrHeader`. -/
  | gzipHeader
  /-- Any other error built with `fmt.Errorf` / `errors.New` from a fixed text. -/
  | text (s : String)
  /-- The value `fmt.Errorf("step %s: %w", name, inner)`. -/
  | step (name : String) (inner : Err)
  /-- A run-time panic (not an `error` value: the goroutine aborts with this message). -/
  | panic (msg : String)
  deriving DecidableEq, Repr

/-! ## Little-endian encodings (`encoding/binary`) -/

/-- The bytes `binary.LittleEndian.PutUint32` stores for `uint32(n)`. -/
def putUint32 (n : Nat) : Bytes :=
  [n % 256, n / 256 % 256, n / 65536 % 256, n / 16777216 % 256]

/-- The value `binary.LittleEndian.Uint32` reads from a 4-byte header. -/
def uint32 (hdr : Bytes) : Nat :=
  (hdr.getD 0 0 + hdr.getD 1 0 * 256 + hdr.getD 2 0 * 65536 + hdr.getD 3 0 * 16777216)
    % 4294967296

/-- The bytes `binary.LittleEndian.PutUint64` stores for a `uint64` counter. -/
def putUint64 (n : Nat) : Bytes :=
  [n % 256, n / 256 % 256, n / 65536 % 256, n / 16777216 % 256,
   n / 4294967296 % 256, n / 1099511627776 % 256, n / 281474976710656 % 256,
   n / 72057594037927936 % 256]

/-! ## The AEAD primitive (`cipher.AEAD`, a parameter) -/

/-- The two operations of `cipher.AEAD` the codec uses: `Seal(nil, nonce, p, nil)` and
`Open(nil, nonce, ct, nil)`; `Open` returns `none` when it returns an error. -/
structure AEAD where
  Seal : Bytes → Bytes → Bytes
  Open : Bytes → Bytes → Option Bytes

/-- The array `var b [12]byte; copy(b[:], nonce)` of `NewGCMWriter` / `NewGCMReader`. -/
def base12 (nonce : Bytes) : Bytes :=
  nonce.take 12 ++ List.replicate (12 - nonce.length) 0

/-- The method `nextNonce` (identical for writer and reader): a copy of the base whose bytes
4..11 are overwritten by the little-endian counter. -/
def nextNonce (base : Bytes) (counter : Nat) : Bytes :=
  base.take 4 ++ putUint64 counter

/-! ## The encoder `gcmWriter` -/

/-- The underlying `io.Writer`: the bytes accepted so far and, for the coming `Write` calls,
whether each one fails (`true`); calls beyond the script succeed. -/
structure Sink where
  out : Bytes
  script : List Bool
  deriving DecidableEq, Repr

/-- One `Write` call on the underlying sink. -/
def Sink.write (s : Sink) (p : Bytes) : Sink × Option Err :=
  match s.script with
  | true :: rest => ({ s with script := rest }, some Err.io)
  | false :: rest => ({ out := s.out ++ p, script := rest }, none)
  | [] => ({ s with out := s.out ++ p }, none)

/-- The struct `gcmWriter` over an underlying writer with state `ω` (the AEAD and the
underlying `Write` are passed to `Write`); `sealed` records, in call order, the
(nonce, plaintext) pairs handed to `Seal`. -/
structure GcmWriter (ω : Type) where
  w : ω
  base : Bytes
  counter : Nat
  sealed : List (Bytes × Bytes)
  deriving DecidableEq, Repr

/-- The constructor `NewGCMWriter`. -/
def NewGCMWriter {ω : Type} (w : ω) (nonce : Bytes) : GcmWriter ω :=
  { w := w, base := base12 nonce, counter := 0, sealed := [] }

/-- The method `gcmWriter.Write`, `wr` being the `Write` of the underlying writer: returns the
writer afterwards, the count `n` and the error. -/
def GcmWriter.Write {ω : Type} (gcm : AEAD) (wr : ω → Bytes → ω × Option Err)
    (s : GcmWriter ω) (p : Bytes) : GcmWriter ω × Nat × Option Err :=
  let nonce := nextNonce s.base s.counter
  let ct := gcm.Seal nonce p
  let s1 := { s with sealed := s.sealed ++ [(nonce, p)] }
  if ct.length > 4294967295 then (s1, 0, some Err.chunkTooLarge)
  else
    match wr s1.w (putUint32 ct.length) with
    | (w1, some e) => ({ s1 with w := w1 }, 0, some e)
    | (w1, none) =>
      match wr w1 ct with
      | (w2, some e) => ({ s1 with w := w2 }, 0, some e)
      | (w2, none) =>
        ({ s1 with w := w2, counter := (s.counter + 1) % 18446744073709551616 }, p.length, none)

/-- A caller issuing one `Write` per chunk to a `gcmWriter` over a `Sink`, whatever the
earlier calls returned; the result is the writer afterwards and the list of per-call
results. -/
def writeEach (gcm : AEAD) :
    GcmWriter Sink → List Bytes → GcmWriter Sink × List (Nat × Option Err)
  | s, [] => (s, [])
  | s, p :: ps =>
    let r := s.Write gcm Sink.write p
    let rest := writeEach gcm r.1 ps
    (rest.1, r.2 :: rest.2)

/-! ## The decoder `gcmReader` -/

/-- The function `io.ReadFull` on a source that holds the bytes `src` and then reports
`io.EOF`: the source afterwards and the `n` bytes, or the error. -/
def readFull (src : Bytes) (n : Nat) : Bytes × Except Err Bytes :=
  if n = 0 then (src, .ok [])
  else if src.length = 0 then ([], .error Err.eof)
  else if src.length < n then ([], .error Err.unexpectedEOF)
  else (src.drop n, .ok (src.take n))

/-- The struct `gcmReader`; `r` is what is left of the underlying source. -/
structure GcmReader where
  r : Bytes
  base : Bytes
  counter : Nat
  buf : Bytes
  deriving DecidableEq, Repr

/-- The constructor `NewGCMReader`. -/
def NewGCMReader (r : Bytes) (nonce : Bytes) : GcmReader :=
  { r := r, base := base12 nonce, counter := 0, buf := [] }

/-- The tail of `gcmReader.Read`: `n := copy(p, s.buf); s.buf = s.buf[n:]`. -/
def GcmReader.serve (s : GcmReader) (plen : Nat) : GcmReader × Bytes × Option Err :=
  ({ s with buf := s.buf.drop plen }, s.buf.take plen, none)

/-- The method `gcmReader.Read` for a buffer `p` of length `plen`: the reader afterwards, the
bytes copied into `p` (their number is the returned `n`) and the error. -/
def GcmReader.Read (gcm : AEAD) (s : GcmReader) (plen : Nat) : GcmReader × Bytes × Option Err :=
  if s.buf.length = 0 then
    match readFull s.r 4 with
    | (r1, .error e) => ({ s with r := r1 }, [], some e)
    | (r1, .ok hdr) =>
      match readFull r1 (uint32 hdr) with
      | (r2, .error e) => ({ s with r := r2 }, [], some e)
      | (r2, .ok ct) =>
        match gcm.Open (nextNonce s.base s.counter) ct with
        | none => ({ s with r := r2 }, [], some Err.auth)
        | some pt =>
          GcmReader.serve
            { s with r := r2, buf := pt, counter := (s.counter + 1) % 18446744073709551616 } plen
  else s.serve plen

/-- A consumer calling `Read` again and again, the `i`-th call with a buffer of `sizes i`
bytes, until `Read` returns an error: all bytes delivered and that error. `none` when `fuel`
calls were not enough. -/
def drain (gcm : AEAD) (sizes : Nat → Nat) : Nat → Nat → GcmReader → Option (Bytes × Err)
  | 0, _, _ => none
  | fuel + 1, i, s =>
    match s.Read gcm (sizes i) with
    | (_, out, some e) => some (out, e)
    | (s1, out, none) => (drain gcm sizes fuel (i + 1) s1).map (fun r => (out ++ r.1, r.2))

/-- The frame `gcmWriter.Write` emits for a sealed chunk. -/
def frame (ct : Bytes) : Bytes := putUint32 ct.length ++ ct

/-- The frames of a chunk list sealed with counters `c`, `c+1`, ... (modulo 2^64). -/
def frames (gcm : AEAD) (base : Bytes) : Nat → List Bytes → Bytes
  | _, [] => []
  | c, p :: ps =>
    frame (gcm.Seal (nextNonce base c) p) ++ frames gcm base ((c + 1) % 18446744073709551616) ps

/-- A toy AEAD for concrete runs: the tag is the nonce, appended to the plaintext. -/
def tagAEAD : AEAD where
  Seal := fun n p => p ++ n
  Open := fun n c =>
    if n.length ≤ c.length ∧ c.drop (c.length - n.length) = n
    then some (c.take (c.length - n.length)) else none

/-! ## The pipeline runner (`internal/pipeline/runner.go`) -/

/-- The struct `Context`: `data` stands for every field but `Finalizers` (the stage files
below fix it); a finalizer `func(*Context) error` acts on `data`. -/
structure Context (σ : Type) where
  data : σ
  Finalizers : List (σ → σ × Option Err)

/-- The interface `Plugin`: `Name()` and `Apply(*Context) error`; `Apply` returns the context
it leaves behind, also when it fails. -/
structure Plugin (σ : Type) where
  Name : String
  Apply : Context σ → Context σ × Option Err

/-- What `Run` called: the stage at position `i` of the order, or the finalizer at position
`i` of `ctx.Finalizers`. -/
inductive Event where
  | stage (i : Nat)
  | finalizer (i : Nat)
  deriving DecidableEq, Repr

/-- The outcome of `Run`: the context afterwards, the returned error, and the calls made. -/
structure RunResult (σ : Type) where
  ctx : Context σ
  err : Option Err
  log : List Event

/-- The first loop of `Run`: `for _, p := range order`. -/
def runStages {σ : Type} : List (Plugin σ) → Nat → Context σ → List Event → RunResult σ
  | [], _, ctx, log => ⟨ctx, none, log⟩
  | p :: ps, i, ctx, log =>
    match p.Apply ctx with
    | (c1, some e) => ⟨c1, some (Err.step p.Name e), log ++ [Event.stage i]⟩
    | (c1, none) => runStages ps (i + 1) c1 (log ++ [Event.stage i])

/-- The second loop of `Run`: `for _, fin := range ctx.Finalizers`. -/
def runFinalizers {σ : Type} :
    List (σ → σ × Option Err) → Nat → σ → List Event → σ × Option Err × List Event
  | [], _, d, log => (d, none, log)
  | f :: fs, i, d, log =>
    match f d with
    | (d1, some e) => (d1, some e, log ++ [Event.finalizer i])
    | (d1, none) => runFinalizers fs (i + 1) d1 (log ++ [Event.finalizer i])

/-- The function `Run`. -/
def Run {σ : Type} (ctx : Context σ) (order : List (Plugin σ)) : RunResult σ :=
  match runStages order 0 ctx [] with
  | ⟨c1, some e, log⟩ => ⟨c1, some e, log⟩
  | ⟨c1, none, log⟩ =>
    let r := runFinalizers c1.Finalizers 0 c1.data log
    ⟨{ c1 with data := r.1 }, r.2.1, r.2.2⟩

/-- Applying the stages of a list in order, each one succeeding, leads from the first context
to the second. -/
inductive StagesOK {σ : Type} : List (Plugin σ) → Context σ → Context σ → Prop where
  | nil (c : Context σ) : StagesOK [] c c
  | cons (p : Plugin σ) (ps : List (Plugin σ)) (c c1 c2 : Context σ) :
      p.Apply c = (c1, none) → StagesOK ps c1 c2 → StagesOK (p :: ps) c c2

/-- Running the finalizers of a list in order, each one succeeding, leads from the first
state to the second. -/
inductive FinalizersOK {σ : Type} : List (σ → σ × Option Err) → σ → σ → Prop where
  | nil (d : σ) : FinalizersOK [] d d
  | cons (f : σ → σ × Option Err) (fs : List (σ → σ × Option Err)) (d d1 d2 : σ) :
      f d = (d1, none) → FinalizersOK fs d1 d2 → FinalizersOK (f :: fs) d d2

/-- The calls `Run` logs for stages `i`, ..., `i + n - 1`. -/
def stageEvents (i n : Nat) : List Event := (List.range' i n).map Event.stage

/-- The calls `Run` logs for finalizers `i`, ..., `i + n - 1`. -/
def finalizerEvents (i n : Nat) : List Event := (List.range' i n).map Event.finalizer

/-- Every chunk of the list, sealed under the nonce of its position, fits the 32-bit length
prefix (the guard of `gcmWriter.Write`). -/
def framesFit (gcm : AEAD) (base : Bytes) : Nat → List Bytes → Prop
  | _, [] => True
  | c, p :: ps =>
    (gcm.Seal (nextNonce base c) p).length ≤ 4294967295 ∧
      framesFit gcm base ((c + 1) % 18446744073709551616) ps

/-- Every chunk of the list, sealed under the nonce of its position, is accepted by `Open`
under that nonce and opens to the chunk. -/
def framesOpen (gcm : AEAD) (base : Bytes) : Nat → List Bytes → Prop
  | _, [] => True
  | c, p :: ps =>
    gcm.Open (nextNonce base c) (gcm.Seal (nextNonce base c) p) = some p ∧
      framesOpen gcm base ((c + 1) % 18446744073709551616) ps

/-- The AEAD behaves as an authenticated cipher on this session: under the nonce of each
position it opens the chunk sealed there and rejects every other ciphertext. -/
def sessionAuth (gcm : AEAD) (base : Bytes) : Nat → List Bytes → Prop
  | _, [] => True
  | c, p :: ps =>
    (gcm.Open (nextNonce base c) (gcm.Seal (nextNonce base c) p) = some p ∧
      ∀ ct, ct ≠ gcm.Seal (nextNonce base c) p → gcm.Open (nextNonce base c) ct = none) ∧
      sessionAuth gcm base ((c + 1) % 18446744073709551616) ps

/-- Flip bit `b` of the byte at position `pos`. -/
def flipBit (bs : Bytes) (pos b : Nat) : Bytes :=
  bs.set pos (bs.getD pos 0 ^^^ 2 ^ b)

/-- A toy AEAD that accepts, under any nonce, only the sealed form of the one plaintext `q`. -/
def pinAEAD (q : Bytes) : AEAD where
  Seal := fun n p => p ++ n
  Open := fun n c => if c = q ++ n then some q else none

/-- A chunk of 2^32 zero bytes. -/
def hugeChunk : Bytes := List.replicate 4294967296 0

/-- A stage over a counter that succeeds and adds one. -/
def countStage : Plugin Nat where
  Name := "meta"
  Apply := fun c => ({ c with data := c.data + 1 }, none)

/-- A stage that fails with `gzip.ErrHeader`. -/
def failStage : Plugin Nat where
  Name := "compress"
  Apply := fun c => (c, some Err.gzipHeader)

/-- A stage that succeeds and registers a finalizer which fails with a fixed message. -/
def registerStage : Plugin Nat where
  Name := "integrity"
  Apply := fun c =>
    ({ c with Finalizers :=
        c.Finalizers ++ [fun d => (d, some (Err.text "integrity sha256 mismatch"))] }, none)

/-! ## Controller records (`map[string]any` decoded from JSON) and the outside world -/

/-- A JSON value held under a decision key; an array or object at this depth is kept as
text, the code never looks inside one. -/
inductive Any where
  | null
  | bool (b : Bool)
  | num (n : Int)
  | str (s : String)
  | raw (text : String)
  deriving DecidableEq, Repr

/-- The value under a stage name: a JSON object (`map[string]any`) or any other value. -/
inductive StageVal where
  | obj (m : List (String × Any))
  | val (v : Any)
  deriving DecidableEq, Repr

/-- A stage's decision map. -/
abbrev Obj := List (String × Any)

/-- The controller record; a `nil` map is `none : Option Ctrl`. -/
abbrev Ctrl := List (String × StageVal)

/-- The map read `m[k]` with its presence flag. -/
def mapGet {α : Type} (m : List (String × α)) (k : String) : Option α := m.lookup k

/-- The map write `m[k] = v`. -/
def mapSet {α : Type} (m : List (String × α)) (k : String) (v : α) : List (String × α) :=
  if (m.lookup k).isSome then m.map (fun kv => if kv.1 == k then (k, v) else kv)
  else m ++ [(k, v)]

/-- The read `ctx.Controller[k]`; reading a `nil` map yields nothing. -/
def ctrlGet (c : Option Ctrl) (k : String) : Option StageVal :=
  match c with
  | none => none
  | some m => mapGet m k

/-- The type assertion `.(map[string]any)`. -/
def asObj : Option StageVal → Option Obj
  | some (StageVal.obj m) => some m
  | _ => none

/-- The type assertion `.(bool)`. -/
def asBool : Option Any → Option Bool
  | some (Any.bool b) => some b
  | _ => none

/-- The type assertion `.(string)`. -/
def asStr : Option Any → Option String
  | some (Any.str s) => some s
  | _ => none

/-- What `os.ReadFile` and `json.Unmarshal` find at the controller path. -/
inductive JsonFile where
  /-- No such file (`os.IsNotExist`). -/
  | absent
  /-- Another `os.ReadFile` error. -/
  | unreadable
  /-- A file `json.Unmarshal` rejects for a `map[string]any`. -/
  | malformed
  /-- The JSON document `null`: accepted, the map stays `nil`. -/
  | null
  /-- A JSON object. -/
  | doc (c : Ctrl)
  deriving DecidableEq, Repr

/-- The world outside the process. -/
structure World where
  /-- The controller file. -/
  json : JsonFile
  /-- Whether `os.WriteFile` on the controller path fails. -/
  readOnly : Bool
  /-- Number of `SaveController` calls made so far. -/
  saves : Nat
  /-- Content of the input path, `none` when it cannot be opened. -/
  input : Option Bytes
  /-- Failure script of the output file (see `Sink`). -/
  outScript : List Bool
  /-- The bytes `rand.Read` delivers. -/
  rand : Bytes
  deriving DecidableEq, Repr

/-- The function `LoadController`: the record, `exists`, and the error. -/
def LoadController (w : World) : Option Ctrl × Bool × Option Err :=
  match w.json with
  | JsonFile.absent => (none, false, none)
  | JsonFile.unreadable => (none, false, some Err.io)
  | JsonFile.malformed => (none, true, some (Err.text "json: cannot unmarshal"))
  | JsonFile.null => (none, true, none)
  | JsonFile.doc c => (some c, true, none)

/-- The function `SaveController` (a `nil` map is marshalled as `null`). -/
def SaveController (w : World) (m : Option Ctrl) : World × Option Err :=
  if w.readOnly then ({ w with saves := w.saves + 1 }, some Err.io)
  else
    ({ w with saves := w.saves + 1,
              json := match m with
                | none => JsonFile.null
                | some c => JsonFile.doc c }, none)

/-- Library functions the stages call (`compress/gzip`, `crypto/sha256`, `encoding/hex`,
`encoding/base64`, `crypto/aes` with `cipher.NewGCM`).
* `gzip d`: all bytes a `gzip.Writer` has emitted once `d` was written and it was closed;
* `gunzip s`: for a `gzip.Reader` over a source delivering `s` and then `io.EOF`, either the
  error of `gzip.NewReader`, or what reading it to the end delivers and the final error;
* `newGCM key`: the AEAD built from a 32-byte key. -/
structure Libs where
  gzip : Bytes → Bytes
  gunzip : Bytes → Except Err (Bytes × Err)
  sha256 : Bytes → Bytes
  hexEncode : Bytes → String
  b64Encode : Bytes → String
  b64Decode : String → Bytes
  newGCM : Bytes → AEAD

/-! ## Stream endpoints -/

/-- An `io.ReadCloser` of the run, described by what reading it to the end delivers: the
bytes, the error that ends them (`io.EOF` for a clean end), and `tapped`, the byte strings
that `teeReadCloser` wrappers inside it feed to the hasher while it is read. -/
structure Reader where
  bytes : Bytes
  err : Err
  tapped : List Bytes
  deriving DecidableEq, Repr

/-- The wrappers a stage can put around the output file. -/
inductive WKind where
  /-- A `gzip.Writer`. -/
  | gzip
  /-- A `gcmWriter` with its AEAD. -/
  | gcm (a : AEAD)
  /-- A `teeWriteCloser` feeding `ctx.Hasher`. -/
  | tee

/-- The state of a chain of writers, outermost wrapper first, around the output file: a
`gzip.Writer` holds the input written so far and whether it was closed. -/
def WState : List WKind → Type
  | [] => Sink
  | WKind.gzip :: ks => (Bytes × Bool) × WState ks
  | WKind.gcm _ :: ks => GcmWriter (WState ks)
  | WKind.tee :: ks => WState ks

/-- The method `Write` of a writer chain; `h` is the input the hasher has received. A
`gzip.Writer` keeps what it is given until `Close`. -/
def WState.write : (ks : List WKind) → WState ks → Bytes → Bytes → WState ks × Bytes × Option Err
  | [], s, h, p =>
    let r := Sink.write s p
    (r.1, h, r.2)
  | WKind.gzip :: _, s, h, p => (((s.1.1 ++ p, s.1.2), s.2), h, none)
  | WKind.gcm a :: ks, s, h, p =>
    let r := GcmWriter.Write a
      (fun (wh : WState ks × Bytes) q =>
        let x := WState.write ks wh.1 wh.2 q
        ((x.1, x.2.1), x.2.2))
      { w := (s.w, h), base := s.base, counter := s.counter, sealed := s.sealed } p
    ({ w := r.1.w.1, base := r.1.base, counter := r.1.counter, sealed := r.1.sealed },
      r.1.w.2, r.2.2)
  | WKind.tee :: ks, s, h, p => WState.write ks s (h ++ p) p

/-- The method `Close` of a writer chain. `gzip.Writer.Close` emits the compressed stream
and leaves the writer below open; `gcmWriter.Close` and `teeWriteCloser.Close` close the
writer below. -/
def WState.close (L : Libs) : (ks : List WKind) → WState ks → Bytes → WState ks × Bytes × Option Err
  | [], s, h => (s, h, none)
  | WKind.gzip :: ks, s, h =>
    if s.1.2 then (s, h, none)
    else
      let r := WState.write ks s.2 h (L.gzip s.1.1)
      (((s.1.1, true), r.1), r.2.1, r.2.2)
  | WKind.gcm _ :: ks, s, h =>
    let r := WState.close L ks s.w h
    ({ s with w := r.1 }, r.2.1, r.2.2)
  | WKind.tee :: ks, s, h => WState.close L ks s h

/-- The output file at the bottom of a writer chain. -/
def WState.file : (ks : List WKind) → WState ks → Sink
  | [], s => s
  | WKind.gzip :: ks, s => WState.file ks s.2
  | WKind.gcm _ :: ks, s => WState.file ks s.w
  | WKind.tee :: ks, s => WState.file ks s

/-- An `io.WriteCloser` of the run: a writer chain with its state. -/
structure Writer where
  kinds : List WKind
  st : WState kinds

/-- The output file below a writer. -/
def Writer.file (w : Writer) : Sink := WState.file w.kinds w.st

/-- A consumer reading a `gcmReader` to its end, frame by frame (a `Read` with an empty `p`
loads the next frame into `buf` and copies nothing): the plaintext delivered and the error
that ends it. Every successful load consumes at least 4 source bytes, so `fuel` above a
quarter of the source length is enough. -/
def GcmReader.readToEnd (gcm : AEAD) : Nat → GcmReader → Bytes × Err
  | 0, _ => ([], Err.eof)
  | fuel + 1, s =>
    match s.Read gcm 0 with
    | (_, _, some e) => ([], e)
    | (s1, _, none) =>
      let r := GcmReader.readToEnd gcm fuel { s1 with buf := [] }
      (s1.buf ++ r.1, r.2)

/-- The reader `NewGCMReader(r, gcm, nonce)` over a reader `r`. When `r` breaks off with an
error of its own, `io.ReadFull` passes that error on in place of the end-of-input errors. -/
def gcmReaderOver (gcm : AEAD) (nonce : Bytes) (r : Reader) : Reader :=
  let d := GcmReader.readToEnd gcm (r.bytes.length + 1) (NewGCMReader r.bytes nonce)
  { bytes := d.1,
    err := if r.err ≠ Err.eof ∧ (d.2 = Err.eof ∨ d.2 = Err.unexpectedEOF) then r.err else d.2,
    tapped := r.tapped }

/-- The call `gzip.NewReader(r)`: the error, or the decompressing reader. When `r` breaks
off with an error of its own before the 10-byte header is complete, that error is returned. -/
def gzipNewReader (L : Libs) (r : Reader) : Except Err Reader :=
  if r.err = Err.eof then
    match L.gunzip r.bytes with
    | .error e => .error e
    | .ok (out, e) => .ok { bytes := out, err := e, tapped := r.tapped }
  else if r.bytes.length < 10 then .error r.err
  else
    match L.gunzip r.bytes with
    | .error e => .error e
    | .ok (out, _) => .ok { bytes := out, err := r.err, tapped := r.tapped }

/-- The reads of `io.CopyBuffer` from a file with a buffer of `n` bytes. -/
def chunksOf (n : Nat) : Nat → Bytes → List Bytes
  | 0, _ => []
  | fuel + 1, bs => if bs = [] then [] else bs.take n :: chunksOf n fuel (bs.drop n)

/-- Successive `Write` calls on a writer chain, stopping at the first error. -/
def WState.writeChunks :
    (ks : List WKind) → WState ks → Bytes → List Bytes → WState ks × Bytes × Option Err
  | _, s, h, [] => (s, h, none)
  | ks, s, h, p :: ps =>
    match WState.write ks s h p with
    | (s1, h1, some e) => (s1, h1, some e)
    | (s1, h1, none) => WState.writeChunks ks s1 h1 ps

/-! ## The run context and the stages -/

/-- The fields of `Context` other than `Finalizers` (paths are replaced by the `World`
they name); `Hasher` holds the input the `sha256` state has received, `none` for `nil`. -/
structure Pipe where
  Mode : String
  Controller : Option Ctrl
  Seed : Option Ctrl
  R : Option Reader
  W : Option Writer
  Hasher : Option Bytes
  FilePass : String
  world : World

/-- The message of the run-time panic on `m[k] = v` for a `nil` map. -/
def nilMapPanic : Err := Err.panic "assignment to entry in nil map"

/-- The message of the run-time panic on a method call through a `nil` endpoint. -/
def nilDerefPanic : Err := Err.panic "invalid memory address or nil pointer dereference"

/-- The opening block of `Compress.Apply`, `Crypto.Apply` and `Integrity.Apply`:
`cval, ok := ctx.Controller[stage].(map[string]any)`; when not ok, a fresh map is stored
under the stage name and the record saved, the error of `SaveController` being discarded.
`none` is the panic of storing into a `nil` record. -/
def stageObj (d : Pipe) (stage : String) : Option (Pipe × Obj) :=
  match asObj (ctrlGet d.Controller stage) with
  | some cval => some (d, cval)
  | none =>
    match d.Controller with
    | none => none
    | some m =>
      let c1 := mapSet m stage (StageVal.obj [])
      some ({ d with Controller := some c1, world := (SaveController d.world (some c1)).1 }, [])

/-- The statements `cval[k] = v; _ = pipeline.SaveController(ctx.JSONPath, ctx.Controller)`
where `cval` is the map stored under `stage` (the record sees the write, the map being
shared); the error of `SaveController` is discarded. -/
def setDecision (d : Pipe) (stage : String) (cval : Obj) (k : String) (v : Any) : Pipe × Obj :=
  let cval1 := mapSet cval k v
  let c1 := d.Controller.map (fun m => mapSet m stage (StageVal.obj cval1))
  ({ d with Controller := c1, world := (SaveController d.world c1).1 }, cval1)

/-- The stage names `Meta.Apply` creates keys for. -/
def stageNames : List String := ["diskio", "meta", "compress", "crypto", "integrity", "copy"]

/-- The method `Meta.Apply`. -/
def Meta.Apply (ctx : Context Pipe) : Context Pipe × Option Err :=
  let d := ctx.data
  match LoadController d.world with
  | (_, _, some e) => (ctx, some e)
  | (ctrl, true, none) => ({ ctx with data := { d with Controller := ctrl } }, none)
  | (_, false, none) =>
    let seed := d.Seed.getD []
    let ctrl : Ctrl := stageNames.foldl
      (fun c k =>
        match mapGet seed k with
        | some v => mapSet c k v
        | none => mapSet c k (StageVal.obj [])) []
    match SaveController d.world (some ctrl) with
    | (w1, some e) => ({ ctx with data := { d with Seed := some seed, world := w1 } }, some e)
    | (w1, none) =>
      ({ ctx with data := { d with Seed := some seed, world := w1, Controller := some ctrl } },
        none)

/-- The method `Compress.Apply`. A wrapper built around a `nil` endpoint is kept as the `nil`
endpoint: the use of it panics later, in `gzip.NewReader` or in `Copy.Apply`. -/
def Compress.Apply (L : Libs) (ctx : Context Pipe) : Context Pipe × Option Err :=
  match stageObj ctx.data "compress" with
  | none => (ctx, some nilMapPanic)
  | some (d1, cval) =>
    let dc : Pipe × Obj :=
      if (mapGet cval "enabled").isNone then
        let seed := asObj (ctrlGet d1.Seed "compress")
        match asBool (seed.bind (fun m => mapGet m "enabled")) with
        | some v => setDecision d1 "compress" cval "enabled" (Any.bool v)
        | none => setDecision d1 "compress" cval "enabled" (Any.bool false)
      else (d1, cval)
    let d2 := dc.1
    let enabled := (asBool (mapGet dc.2 "enabled")).getD false
    if !enabled then ({ ctx with data := d2 }, none)
    else if d2.Mode = "backup" then
      match d2.W with
      | none => ({ ctx with data := d2 }, none)
      | some w =>
        ({ ctx with data :=
            { d2 with W := some ⟨WKind.gzip :: w.kinds, (([], false), w.st)⟩ } }, none)
    else
      match d2.R with
      | none => ({ ctx with data := d2 }, some nilDerefPanic)
      | some r =>
        match gzipNewReader L r with
        | .error e => ({ ctx with data := d2 }, some e)
        | .ok zr => ({ ctx with data := { d2 with R := some zr } }, none)

/-- The bytes `[]byte(s)` of a Go string. -/
def stringBytes (s : String) : Bytes :=
  (s.data.map (fun c => (String.utf8EncodeChar c).map UInt8.toNat)).flatten

/-- The method `Crypto.Apply`. The key `sha256.Sum256([]byte(ctx.FilePass))` has 32 bytes, so
`aes.NewCipher` and `cipher.NewGCM` do not fail. A wrapper built around a `nil` endpoint is
kept as the `nil` endpoint. -/
def Crypto.Apply (L : Libs) (ctx : Context Pipe) : Context Pipe × Option Err :=
  match stageObj ctx.data "crypto" with
  | none => (ctx, some nilMapPanic)
  | some (d1, cval) =>
    let dc : Pipe × Obj :=
      if (mapGet cval "enabled").isNone then setDecision d1 "crypto" cval "enabled" (Any.bool true)
      else (d1, cval)
    let enabled := (asBool (mapGet dc.2 "enabled")).getD false
    if !enabled then ({ ctx with data := dc.1 }, none)
    else
      let dn : Pipe × String :=
        match asStr (mapGet dc.2 "nonce_b") with
        | some nonceB =>
          if nonceB = "" then
            let nb := L.b64Encode (base12 dc.1.world.rand)
            ((setDecision dc.1 "crypto" dc.2 "nonce_b" (Any.str nb)).1, nb)
          else (dc.1, nonceB)
        | none =>
          let nb := L.b64Encode (base12 dc.1.world.rand)
          ((setDecision dc.1 "crypto" dc.2 "nonce_b" (Any.str nb)).1, nb)
      let d3 := dn.1
      let nonce := L.b64Decode dn.2
      let gcm := L.newGCM (L.sha256 (stringBytes d3.FilePass))
      if d3.Mode = "backup" then
        match d3.W with
        | none => ({ ctx with data := d3 }, none)
        | some w =>
          ({ ctx with data :=
              { d3 with W := some ⟨WKind.gcm gcm :: w.kinds, NewGCMWriter w.st nonce⟩ } }, none)
      else
        match d3.R with
        | none => ({ ctx with data := d3 }, none)
        | some r => ({ ctx with data := { d3 with R := some (gcmReaderOver gcm nonce r) } }, none)

/-- The finalizer `Integrity.Apply` registers. -/
def integrityFinalizer (L : Libs) (c : Pipe) : Pipe × Option Err :=
  match c.Hasher with
  | none => (c, some nilDerefPanic)
  | some hashed =>
    let sum := L.hexEncode (L.sha256 hashed)
    let ival2 := asObj (ctrlGet c.Controller "integrity")
    let existing := asStr (ival2.bind (fun m => mapGet m "sha256"))
    if existing.isSome ∧ existing ≠ some "" then
      if existing ≠ some sum then (c, some (Err.text "integrity sha256 mismatch"))
      else (c, none)
    else
      match ival2 with
      | none => (c, some nilMapPanic)
      | some m =>
        let c1 := c.Controller.map
          (fun ctrl => mapSet ctrl "integrity" (StageVal.obj (mapSet m "sha256" (Any.str sum))))
        let r := SaveController c.world c1
        ({ c with Controller := c1, world := r.1 }, r.2)

/-- The method `Integrity.Apply`. -/
def Integrity.Apply (L : Libs) (ctx : Context Pipe) : Context Pipe × Option Err :=
  match stageObj ctx.data "integrity" with
  | none => (ctx, some nilMapPanic)
  | some (d1, _) =>
    let d2 := { d1 with Hasher := some (d1.Hasher.getD []) }
    let d3 : Pipe :=
      if d2.Mode = "backup" then
        { d2 with W := d2.W.map (fun w => ⟨WKind.tee :: w.kinds, w.st⟩) }
      else
        { d2 with R := d2.R.map (fun r => { r with tapped := r.tapped ++ [r.bytes] }) }
    ({ data := d3, Finalizers := ctx.Finalizers ++ [integrityFinalizer L] }, none)

/-- The method `Copy.Apply`: `io.CopyBuffer` with its 8 MiB buffer, then both endpoints are
closed, the errors of `Close` being discarded. -/
def Copy.Apply (L : Libs) (ctx : Context Pipe) : Context Pipe × Option Err :=
  let d := ctx.data
  match d.R, d.W with
  | some r, some w =>
    let res := WState.writeChunks w.kinds w.st (d.Hasher.getD [])
      (chunksOf 8388608 r.bytes.length r.bytes)
    let h1 := res.2.1 ++ r.tapped.flatten
    let err : Option Err :=
      match res.2.2 with
      | some e => some e
      | none => if r.err = Err.eof then none else some r.err
    let cl := WState.close L w.kinds res.1 h1
    ({ ctx with data :=
        { d with W := some ⟨w.kinds, cl.1⟩, Hasher := d.Hasher.map (fun _ => cl.2.1) } }, err)
  | _, _ => (ctx, some nilDerefPanic)

/-- The method `DiskIO.Apply` for paths that are plain files: both endpoints are opened,
the output truncated. -/
def DiskIO.Apply (ctx : Context Pipe) : Context Pipe × Option Err :=
  let d := ctx.data
  let d1 : Pipe :=
    match d.Controller with
    | none => d
    | some m =>
      if (mapGet m "diskio").isNone then
        let c1 := mapSet m "diskio" (StageVal.obj [])
        { d with Controller := some c1, world := (SaveController d.world (some c1)).1 }
      else d
  match d1.world.input with
  | none => ({ ctx with data := d1 }, some Err.io)
  | some content =>
    ({ ctx with data :=
        { d1 with R := some { bytes := content, err := Err.eof, tapped := [] },
                  W := some ⟨[], ({ out := [], script := d1.world.outScript } : Sink)⟩ } }, none)

/-- The stage order `cmdDD` builds for `--mode=backup`. -/
def backupOrder (L : Libs) : List (Plugin Pipe) :=
  [⟨"diskio", DiskIO.Apply⟩, ⟨"meta", Meta.Apply⟩, ⟨"compress", Compress.Apply L⟩,
   ⟨"crypto", Crypto.Apply L⟩, ⟨"integrity", Integrity.Apply L⟩, ⟨"copy", Copy.Apply L⟩]

/-- The stage order `cmdDD` builds for `--mode=restore`. -/
def restoreOrder (L : Libs) : List (Plugin Pipe) :=
  [⟨"diskio", DiskIO.Apply⟩, ⟨"meta", Meta.Apply⟩, ⟨"crypto", Crypto.Apply L⟩,
   ⟨"compress", Compress.Apply L⟩, ⟨"integrity", Integrity.Apply L⟩, ⟨"copy", Copy.Apply L⟩]

/-- The context `cmdDD` builds from its flags. -/
def initialContext (mode filepass : String) (compressSeed : Bool) (w : World) : Context Pipe :=
  { data :=
      { Mode := mode, Controller := none,
        Seed := some [("compress", StageVal.obj [("enabled", Any.bool compressSeed)])],
        R := none, W := none, Hasher := none, FilePass := filepass, world := w },
    Finalizers := [] }

/-- The function `cmdDD` after flag parsing, up to the return of `pipeline.Run`. -/
def cmdDD (L : Libs) (mode filepass : String) (compressSeed : Bool) (w : World) :
    RunResult Pipe :=
  Run (initialContext mode filepass compressSeed w)
    (if mode = "backup" then backupOrder L else restoreOrder L)

/-- The bytes in the output file once a run is over. -/
def RunResult.artifact (r : RunResult Pipe) : Bytes :=
  match r.ctx.data.W with
  | none => []
  | some w => w.file.out

/-- One lower-case hexadecimal digit. -/
def hexDigit (n : Nat) : Char := Char.ofNat (if n < 10 then 48 + n else 87 + n)

/-- The function `hex.EncodeToString`. -/
def hexString (d : Bytes) : String :=
  String.mk (d.map (fun b => [hexDigit (b / 16 % 16), hexDigit (b % 16)])).flatten

/-- Stand-ins for the libraries in concrete runs. `gzip` puts the 10-byte header of a
`gzip.Writer` (magic `1f 8b`, deflate, no flags, no mtime, fastest, unknown OS) in front of
the data and an 8-byte trailer behind; `gunzip` undoes it and rejects any other header;
the digest is the byte sum modulo 256, base64 prints one character per byte; the AEAD is
`tagAEAD`. -/
def toyLibs : Libs where
  gzip := fun d => [31, 139, 8, 0, 0, 0, 0, 0, 4, 255] ++ d ++ [0, 0, 0, 0, 0, 0, 0, 0]
  gunzip := fun s =>
    if s = [] then .error Err.eof
    else if s.length < 10 then .error Err.unexpectedEOF
    else if s.take 10 ≠ [31, 139, 8, 0, 0, 0, 0, 0, 4, 255] then .error Err.gzipHeader
    else if s.length < 18 then .ok ([], Err.unexpectedEOF)
    else .ok ((s.drop 10).take (s.length - 18), Err.eof)
  sha256 := fun d => [d.sum % 256]
  hexEncode := hexString
  b64Encode := fun d => String.mk (d.map (fun b => Char.ofNat (b + 48)))
  b64Decode := fun s => s.data.map (fun c => c.toNat - 48)
  newGCM := fun _ => tagAEAD

/-- A world with a fresh controller path and the input `hello world`. -/
def helloWorld : World :=
  { json := JsonFile.absent, readOnly := false, saves := 0,
    input := some [104, 101, 108, 108, 111, 32, 119, 111, 114, 108, 100],
    outScript := [], rand := [9, 9, 9, 9, 1, 2, 3, 4, 5, 6, 7, 8] }

/-- The world a restore run finds after a backup run: the artifact as input, the controller
file as the backup left it. -/
def worldAfter (r : RunResult Pipe) : World :=
  { r.ctx.data.world with input := some r.artifact, saves := 0 }

/-- A world whose controller file already holds `compress.enabled = true`. -/
def decidedWorld : World :=
  { json := JsonFile.doc
      [("diskio", StageVal.obj []), ("meta", StageVal.obj []),
       ("compress", StageVal.obj [("enabled", Any.bool true)]),
       ("crypto", StageVal.obj []), ("integrity", StageVal.obj []), ("copy", StageVal.obj [])],
    readOnly := false, saves := 0,
    input := some [104, 101, 108, 108, 111, 32, 119, 111, 114, 108, 100],
    outScript := [], rand := [9, 9, 9, 9, 1, 2, 3, 4, 5, 6, 7, 8] }

/-- A context at the end of a run, ahead of the finalizers: the hasher has received the
bytes `[1]` and the record holds `stored` under `integrity.sha256`. -/
def finalizerInput (stored : Any) : Pipe :=
  { (initialContext "restore" "p" false helloWorld).data with
    Controller := some [("integrity", StageVal.obj [("sha256", stored)])],
    Hasher := some [1] }

/-- A world whose controller file is the JSON document `null`. -/
def nullWorld : World := { helloWorld with json := JsonFile.null }

/-- A world whose controller file holds the six stage names with empty decision maps and
cannot be written. -/
def readOnlyWorld : World :=
  { helloWorld with
    json := JsonFile.doc (stageNames.map (fun k => (k, StageVal.obj []))),
    readOnly := true }

/-- The backup context after `DiskIO.Apply` and `Meta.Apply` in `readOnlyWorld`, the caller
seeding `compress.enabled = true`. -/
def readOnlyLoaded : Context Pipe :=
  (Meta.Apply ( DiskIO.Apply (initialContext "backup" "p" true readOnlyWorld)).1).1

/-- A backup context whose record has `crypto.enabled = true` and no nonce base yet. -/
def nonceInput : Context Pipe :=
  { data :=
      { ( DiskIO.Apply (initialContext "backup" "p" false helloWorld)).1.data with
        Controller := some [("crypto", StageVal.obj [("enabled", Any.bool true)])] },
    Finalizers := [] }

/-- The record `Meta.Apply` creates when the caller seeds `compress.enabled = b`. -/
def freshRecord (b : Bool) : Ctrl :=
  [("diskio", StageVal.obj []), ("meta", StageVal.obj []),
   ("compress", StageVal.obj [("enabled", Any.bool b)]), ("crypto", StageVal.obj []),
   ("integrity", StageVal.obj []), ("copy", StageVal.obj [])]

/-- The record after `Crypto.Apply` has enabled encryption and stored the nonce text `nb`. -/
def cryptoRecord (b : Bool) (nb : String) : Ctrl :=
  [("diskio", StageVal.obj []), ("meta", StageVal.obj []),
   ("compress", StageVal.obj [("enabled", Any.bool b)]),
   ("crypto", StageVal.obj [("enabled", Any.bool true), ("nonce_b", Any.str nb)]),
   ("integrity", StageVal.obj []), ("copy", StageVal.obj [])]

/-- The record after the integrity finalizer has stored the digest text `sum`. -/
def finalRecord (b : Bool) (nb sum : String) : Ctrl :=
  [("diskio", StageVal.obj []), ("meta", StageVal.obj []),
   ("compress", StageVal.obj [("enabled", Any.bool b)]),
   ("crypto", StageVal.obj [("enabled", Any.bool true), ("nonce_b", Any.str nb)]),
   ("integrity", StageVal.obj [("sha256", Any.str sum)]), ("copy", StageVal.obj [])]

/-- A run context given by the fields a run changes; the seed is `compress.enabled = b`, the
controller file is writable and the output file accepts every write. -/
def runCtx (mode pass : String) (b : Bool) (input rnd : Bytes) (ctrl : Option Ctrl)
    (R : Option Reader) (W : Option Writer) (H : Option Bytes) (json : JsonFile) (saves : Nat)
    (fins : List (Pipe → Pipe × Option Err)) : Context Pipe :=
  { data :=
      { Mode := mode, Controller := ctrl,
        Seed := some [("compress", StageVal.obj [("enabled", Any.bool b)])],
        R := R, W := W, Hasher := H, FilePass := pass,
        world :=
          { json := json, readOnly := false, saves := saves, input := some input,
            outScript := [], rand := rnd } },
    Finalizers := fins }

/-- The context of a backup run with compression off, after the stages `diskio`, `meta`,
`compress`, `crypto` and `integrity`, on a fresh controller path. -/
def backupBeforeCopy (L : Libs) (pass : String) (data rnd : Bytes) (s : Nat) : Context Pipe :=
  runCtx "backup" pass false data rnd
    (some (cryptoRecord false (L.b64Encode (base12 rnd))))
    (some { bytes := data, err := Err.eof, tapped := [] })
    (some ⟨[WKind.tee, WKind.gcm (L.newGCM (L.sha256 (stringBytes pass)))],
      (NewGCMWriter ({ out := [], script := [] } : Sink)
        (L.b64Decode (L.b64Encode (base12 rnd))) : GcmWriter Sink)⟩)
    (some []) (JsonFile.doc (cryptoRecord false (L.b64Encode (base12 rnd)))) (s + 1 + 1 + 1)
    [integrityFinalizer L]

/-- The artifact of a backup with compression off: the frames of the 8 MiB reads of `data`,
sealed with the key of `pass` under the nonce base stored for `rnd`. -/
def sealedArtifact (L : Libs) (pass : String) (data rnd : Bytes) : Bytes :=
  frames (L.newGCM (L.sha256 (stringBytes pass)))
    (base12 (L.b64Decode (L.b64Encode (base12 rnd)))) 0 (chunksOf 8388608 data.length data)

/-- A restore context over the controller file a backup left (compression off, nonce text
of `rnd`, digest of `data`), given by the fields the run changes; the output file accepts
every write. -/
def restoreCtx (L : Libs) (pass : String) (b : Bool) (data rnd rnd2 : Bytes) (s : Nat)
    (ctrl : Option Ctrl) (R : Option Reader) (H : Option Bytes)
    (fins : List (Pipe → Pipe × Option Err)) : Context Pipe :=
  { data :=
      { Mode := "restore", Controller := ctrl,
        Seed := some [("compress", StageVal.obj [("enabled", Any.bool b)])],
        R := R, W := some ⟨[], ({ out := [], script := [] } : Sink)⟩, Hasher := H,
        FilePass := pass,
        world :=
          { json := JsonFile.doc (finalRecord false (L.b64Encode (base12 rnd))
              (L.hexEncode (L.sha256 data))),
            readOnly := false, saves := s,
            input := some (sealedArtifact L pass data rnd),
            outScript := [], rand := rnd2 } },
    Finalizers := fins }

/-- The context of that restore run after the stages `diskio`, `meta`, `crypto`, `compress`
and `integrity`. -/
def restoreBeforeCopy (L : Libs) (pass : String) (b : Bool) (data rnd rnd2 : Bytes) (s : Nat) :
    Context Pipe :=
  restoreCtx L pass b data rnd rnd2 s
    (some (finalRecord false (L.b64Encode (base12 rnd)) (L.hexEncode (L.sha256 data))))
    (some { bytes := data, err := Err.eof, tapped := [data] }) (some [])
    [integrityFinalizer L]

/-- A world with a fresh, writable controller path, the input `data`, an output file that
accepts every write, and `rnd` as the next random bytes. -/
def freshWorld (data rnd : Bytes) (s : Nat) : World :=
  { json := JsonFile.absent, readOnly := false, saves := s, input := some data,
    outScript := [], rand := rnd }

/-- The world of a later restore run: the controller file as the run `bk` left it, the
artifact of `bk` as input, other random bytes. -/
def restoreWorld (bk : RunResult Pipe) (rnd2 : Bytes) (s : Nat) : World :=
  { bk.ctx.data.world with input := some bk.artifact, rand := rnd2, saves := s }

/-! ## Basic facts about the encodings and `io.ReadFull` -/

theorem putUint32_length (n : Nat) : (putUint32 n).length = 4 := rfl

theorem uint32_putUint32 (n : Nat) (h : n ≤ 4294967295) : uint32 (putUint32 n) = n := by
  simp only [uint32, putUint32, List.getD_cons_zero, List.getD_cons_succ]
  omega

theorem readFull_append (l rest : Bytes) : readFull (l ++ rest) l.length = (rest, .ok l) := by
  unfold readFull
  by_cases h0 : l.length = 0
  · have : l = [] := List.length_eq_zero.mp h0
    subst this
    simp
  · have hne : l ≠ [] := fun h => h0 (by simp [h])
    simp [h0, hne]

theorem readFull_header (n : Nat) (rest : Bytes) :
    readFull (putUint32 n ++ rest) 4 = (rest, .ok (putUint32 n)) :=
  readFull_append (putUint32 n) rest

/-! ## Reading frames back -/

theorem Read_frame (gcm : AEAD) (base : Bytes) (c : Nat) (ct rest pt : Bytes) (plen : Nat)
    (hfit : ct.length ≤ 4294967295) (hopen : gcm.Open (nextNonce base c) ct = some pt) :
    GcmReader.Read gcm { r := frame ct ++ rest, base := base, counter := c, buf := [] } plen =
      ({ r := rest, base := base, counter := (c + 1) % 18446744073709551616,
         buf := pt.drop plen }, pt.take plen, none) := by
  simp only [GcmReader.Read, frame, List.length_nil, if_true, List.append_assoc,
    readFull_header, uint32_putUint32 _ hfit, readFull_append, hopen, GcmReader.serve]

theorem Read_frame_reject (gcm : AEAD) (base : Bytes) (c : Nat) (ct rest : Bytes) (plen : Nat)
    (hfit : ct.length ≤ 4294967295) (hopen : gcm.Open (nextNonce base c) ct = none) :
    GcmReader.Read gcm { r := frame ct ++ rest, base := base, counter := c, buf := [] } plen =
      ({ r := rest, base := base, counter := c, buf := [] }, [], some Err.auth) := by
  simp only [GcmReader.Read, frame, List.length_nil, if_true, List.append_assoc,
    readFull_header, uint32_putUint32 _ hfit, readFull_append, hopen]

theorem drain_buffered (gcm : AEAD) (sizes : Nat → Nat) (hpos : ∀ i, 0 < sizes i) :
    ∀ (m : Nat) (r base : Bytes) (c : Nat) (buf : Bytes) (i : Nat), buf.length ≤ m →
      ∃ n j, ∀ fuel,
        drain gcm sizes (n + fuel) i { r := r, base := base, counter := c, buf := buf } =
          (drain gcm sizes fuel j { r := r, base := base, counter := c, buf := [] }).map
            (fun x => (buf ++ x.1, x.2)) := by
  intro m
  induction m with
  | zero =>
    intro r base c buf i hm
    have : buf = [] := List.length_eq_zero.mp (Nat.le_zero.mp hm)
    subst this
    refine ⟨0, i, fun fuel => ?_⟩
    simp
  | succ m ih =>
    intro r base c buf i hm
    by_cases hb : buf = []
    · subst hb
      refine ⟨0, i, fun fuel => ?_⟩
      simp
    · have hlen : buf.length ≠ 0 := fun h => hb (List.length_eq_zero.mp h)
      have hdrop : (buf.drop (sizes i)).length ≤ m := by
        have := hpos i
        simp only [List.length_drop]
        omega
      obtain ⟨n, j, hn⟩ := ih r base c (buf.drop (sizes i)) (i + 1) hdrop
      refine ⟨n + 1, j, fun fuel => ?_⟩
      have e : n + 1 + fuel = (n + fuel) + 1 := by omega
      rw [e, drain]
      simp only [GcmReader.Read, hlen, if_false, GcmReader.serve]
      rw [hn fuel]
      cases drain gcm sizes fuel j { r := r, base := base, counter := c, buf := [] } with
      | none => rfl
      | some x => simp [← List.append_assoc]

theorem drain_frame (gcm : AEAD) (sizes : Nat → Nat) (hpos : ∀ i, 0 < sizes i)
    (base : Bytes) (c : Nat) (ct rest pt : Bytes) (i : Nat)
    (hfit : ct.length ≤ 4294967295) (hopen : gcm.Open (nextNonce base c) ct = some pt) :
    ∃ n j, ∀ fuel,
      drain gcm sizes (n + fuel) i
          { r := frame ct ++ rest, base := base, counter := c, buf := [] } =
        (drain gcm sizes fuel j
          { r := rest, base := base, counter := (c + 1) % 18446744073709551616,
            buf := [] }).map (fun x => (pt ++ x.1, x.2)) := by
  obtain ⟨n, j, hn⟩ := drain_buffered gcm sizes hpos (pt.drop (sizes i)).length rest base
    ((c + 1) % 18446744073709551616) (pt.drop (sizes i)) (i + 1) (le_refl _)
  refine ⟨n + 1, j, fun fuel => ?_⟩
  have e : n + 1 + fuel = (n + fuel) + 1 := by omega
  rw [e, drain, Read_frame gcm base c ct rest pt (sizes i) hfit hopen]
  simp only
  rw [hn fuel]
  cases drain gcm sizes fuel j
      { r := rest, base := base, counter := (c + 1) % 18446744073709551616, buf := [] } with
  | none => rfl
  | some x => simp [← List.append_assoc]

theorem framesOpen_of_correct (gcm : AEAD) (hgcm : ∀ n p, gcm.Open n (gcm.Seal n p) = some p)
    (base : Bytes) : ∀ (chunks : List Bytes) (c : Nat), framesOpen gcm base c chunks := by
  intro chunks
  induction chunks with
  | nil => intro c; trivial
  | cons p ps ih => intro c; exact ⟨hgcm _ _, ih _⟩

theorem drain_frames (gcm : AEAD) (sizes : Nat → Nat) (hpos : ∀ i, 0 < sizes i)
    (base rest : Bytes) :
    ∀ (chunks : List Bytes) (c i : Nat), c < 18446744073709551616 →
      framesFit gcm base c chunks → framesOpen gcm base c chunks →
      ∃ n j, ∀ fuel,
        drain gcm sizes (n + fuel) i
            { r := frames gcm base c chunks ++ rest, base := base, counter := c, buf := [] } =
          (drain gcm sizes fuel j
            { r := rest, base := base,
              counter := (c + chunks.length) % 18446744073709551616, buf := [] }).map
            (fun x => (chunks.flatten ++ x.1, x.2)) := by
  intro chunks
  induction chunks with
  | nil =>
    intro c i hlt _ _
    refine ⟨0, i, fun fuel => ?_⟩
    have hc : (c + ([] : List Bytes).length) % 18446744073709551616 = c := by
      simp only [List.length_nil]
      omega
    simp only [frames, List.nil_append, Nat.zero_add, List.flatten_nil, hc]
    cases drain gcm sizes fuel i { r := rest, base := base, counter := c, buf := [] } with
    | none => rfl
    | some x => simp
  | cons p ps ih =>
    intro c i hlt hfit hopen
    obtain ⟨hp, hps⟩ := hfit
    obtain ⟨ho, hos⟩ := hopen
    obtain ⟨n1, j1, h1⟩ := drain_frame gcm sizes hpos base c
      (gcm.Seal (nextNonce base c) p)
      (frames gcm base ((c + 1) % 18446744073709551616) ps ++ rest) p i hp ho
    obtain ⟨n2, j2, h2⟩ := ih ((c + 1) % 18446744073709551616) j1
      (Nat.mod_lt _ (by decide)) hps hos
    refine ⟨n1 + n2, j2, fun fuel => ?_⟩
    have e : n1 + n2 + fuel = n1 + (n2 + fuel) := by omega
    have hc : ((c + 1) % 18446744073709551616 + ps.length) % 18446744073709551616
        = (c + (p :: ps).length) % 18446744073709551616 := by
      simp only [List.length_cons]
      omega
    rw [e]
    simp only [frames, List.append_assoc]
    rw [h1 (n2 + fuel), h2 fuel, hc]
    cases drain gcm sizes fuel j2
        { r := rest, base := base,
          counter := (c + (p :: ps).length) % 18446744073709551616, buf := [] } with
    | none => rfl
    | some x => simp

theorem drain_exhausted (gcm : AEAD) (sizes : Nat → Nat) (base : Bytes) (c i fuel : Nat) :
    drain gcm sizes (fuel + 1) i { r := [], base := base, counter := c, buf := [] } =
      some ([], Err.eof) := by
  simp [drain, GcmReader.Read, readFull]

/-! ## When `Read` reports `io.EOF` -/

theorem Read_eof_iff (gcm : AEAD) (s : GcmReader) (plen : Nat) :
    (s.Read gcm plen).2.2 = some Err.eof ↔
      s.buf = [] ∧ (s.r = [] ∨ (s.r.length = 4 ∧ uint32 s.r ≠ 0)) := by
  unfold GcmReader.Read
  by_cases hb : s.buf.length = 0
  · have hb' : s.buf = [] := List.length_eq_zero.mp hb
    simp only [hb, if_true, hb', true_and]
    by_cases h0 : s.r.length = 0
    · have : s.r = [] := List.length_eq_zero.mp h0
      simp [readFull, this]
    · have hne : s.r ≠ [] := fun h => h0 (by simp [h])
      by_cases h4 : s.r.length < 4
      · simp [readFull, h0, h4, hne]
        omega
      · have e1 : readFull s.r 4 = (s.r.drop 4, .ok (s.r.take 4)) := by
          simp [readFull, h0, h4]
        simp only [e1, hne, false_or]
        by_cases hz : uint32 (s.r.take 4) = 0
        · have e2 : readFull (s.r.drop 4) (uint32 (s.r.take 4)) = (s.r.drop 4, .ok []) := by
            simp [readFull, hz]
          simp only [e2]
          have : ¬ (s.r.length = 4 ∧ uint32 s.r ≠ 0) := by
            rintro ⟨h, hu⟩
            rw [← h, List.take_length] at hz
            exact hu hz
          cases gcm.Open (nextNonce s.base s.counter) [] <;> simp [GcmReader.serve, this]
        · by_cases hd : (s.r.drop 4).length = 0
          · have e2 : readFull (s.r.drop 4) (uint32 (s.r.take 4)) = ([], .error Err.eof) := by
              simp [readFull, hz, hd]
            have hl : s.r.length = 4 := by
              simp only [List.length_drop] at hd
              omega
            have ht : s.r.take 4 = s.r := by rw [← hl, List.take_length]
            simp only [e2]
            rw [ht] at hz
            simp [hl, hz]
          · have hl : s.r.length ≠ 4 := by
              simp only [List.length_drop] at hd
              omega
            by_cases hs : (s.r.drop 4).length < uint32 (s.r.take 4)
            · have e2 : readFull (s.r.drop 4) (uint32 (s.r.take 4))
                  = ([], .error Err.unexpectedEOF) := by
                rw [readFull, if_neg hz, if_neg hd, if_pos hs]
              simp [e2, hl]
            · have e2 : readFull (s.r.drop 4) (uint32 (s.r.take 4))
                  = ((s.r.drop 4).drop (uint32 (s.r.take 4)),
                      .ok ((s.r.drop 4).take (uint32 (s.r.take 4)))) := by
                rw [readFull, if_neg hz, if_neg hd, if_neg hs]
              simp only [e2]
              cases gcm.Open (nextNonce s.base s.counter)
                ((s.r.drop 4).take (uint32 (s.r.take 4))) <;> simp [GcmReader.serve, hl]
  · have hb' : s.buf ≠ [] := fun h => hb (by simp [h])
    simp [hb, hb', GcmReader.serve]

/-! ## What a sequence of successful writes emits -/

theorem Write_ok (gcm : AEAD) (s : GcmWriter Sink) (p : Bytes) (hs : s.w.script = [])
    (hfit : (gcm.Seal (nextNonce s.base s.counter) p).length ≤ 4294967295) :
    s.Write gcm Sink.write p =
      ({ w := { out := s.w.out ++ frame (gcm.Seal (nextNonce s.base s.counter) p),
                script := [] },
         base := s.base, counter := (s.counter + 1) % 18446744073709551616,
         sealed := s.sealed ++ [(nextNonce s.base s.counter, p)] }, p.length, none) := by
  have h : ¬ (gcm.Seal (nextNonce s.base s.counter) p).length > 4294967295 := by omega
  simp [GcmWriter.Write, h, Sink.write, hs, frame]

theorem Write_tooLarge (gcm : AEAD) (s : GcmWriter Sink) (p : Bytes)
    (hbig : 4294967295 < (gcm.Seal (nextNonce s.base s.counter) p).length) :
    s.Write gcm Sink.write p =
      ({ s with sealed := s.sealed ++ [(nextNonce s.base s.counter, p)] }, 0,
        some Err.chunkTooLarge) := by
  simp [GcmWriter.Write, hbig]

theorem writeEach_ok (gcm : AEAD) :
    ∀ (chunks : List Bytes) (s : GcmWriter Sink), s.w.script = [] →
      (∀ r ∈ (writeEach gcm s chunks).2, r.2 = none) →
      framesFit gcm s.base s.counter chunks ∧
        (writeEach gcm s chunks).1.w.out = s.w.out ++ frames gcm s.base s.counter chunks ∧
        (writeEach gcm s chunks).1.base = s.base := by
  intro chunks
  induction chunks with
  | nil => intro s _ _; simp [writeEach, framesFit, frames]
  | cons p ps ih =>
    intro s hs hok
    have hfit : (gcm.Seal (nextNonce s.base s.counter) p).length ≤ 4294967295 := by
      by_contra hbig
      have hbig' : 4294967295 < (gcm.Seal (nextNonce s.base s.counter) p).length := by omega
      have := hok (s.Write gcm Sink.write p).2 (by simp [writeEach])
      rw [Write_tooLarge gcm s p hbig'] at this
      exact absurd this (by simp)
    have hw := Write_ok gcm s p hs hfit
    simp only [writeEach, hw] at hok ⊢
    obtain ⟨h1, h2, h3⟩ := ih _ rfl (fun r hr => hok r (List.mem_cons_of_mem _ hr))
    refine ⟨⟨hfit, h1⟩, ?_, h3⟩
    rw [h2]
    simp [frames]

theorem tagAEAD_open_seal (n p : Bytes) : tagAEAD.Open n (tagAEAD.Seal n p) = some p := by
  simp [tagAEAD]

theorem tagAEAD_seal_length (n p : Bytes) : (tagAEAD.Seal n p).length = p.length + n.length := by
  simp [tagAEAD]

theorem hugeChunk_length : hugeChunk.length = 4294967296 := List.length_replicate _ _

/-! ## C1: codec round trip -/

/-- C1 (amended): for every AEAD with `Open(n, Seal(n, p)) = p`, every nonce base, every list
of chunks written one per `Write` call to a `gcmWriter` over a sink that accepts everything,
provided every `Write` call succeeded (no chunk was rejected as too large), and every sequence
of positive read-buffer sizes: enough `Read` calls on a `gcmReader` over the emitted bytes
deliver exactly the concatenation of the chunks and then `io.EOF`. -/
theorem gcm_roundtrip (gcm : AEAD) (hgcm : ∀ n p, gcm.Open n (gcm.Seal n p) = some p)
    (nonce : Bytes) (chunks : List Bytes) (sizes : Nat → Nat) (hpos : ∀ i, 0 < sizes i)
    (hok : ∀ r ∈ (writeEach gcm (NewGCMWriter ⟨[], []⟩ nonce) chunks).2, r.2 = none) :
    ∃ n, ∀ fuel, n ≤ fuel →
      drain gcm sizes fuel 0
          (NewGCMReader (writeEach gcm (NewGCMWriter ⟨[], []⟩ nonce) chunks).1.w.out nonce) =
        some (chunks.flatten, Err.eof) := by
  obtain ⟨hfit, hout, _⟩ := writeEach_ok gcm chunks (NewGCMWriter ⟨[], []⟩ nonce) rfl hok
  obtain ⟨n, j, hn⟩ := drain_frames gcm sizes hpos (base12 nonce) [] chunks 0 0
    (by decide) hfit (framesOpen_of_correct gcm hgcm _ _ _)
  refine ⟨n + 1, fun fuel hfuel => ?_⟩
  obtain ⟨k, rfl⟩ : ∃ k, fuel = n + (k + 1) := ⟨fuel - n - 1, by omega⟩
  rw [hout]
  simp only [NewGCMWriter, NewGCMReader, List.nil_append]
  have := hn (k + 1)
  simp only [List.append_nil] at this
  rw [this, drain_exhausted]
  simp

/-- Witness of `gcm_roundtrip`: three chunks (one of them empty) read back two bytes at a
time. -/
theorem gcm_roundtrip_witness :
    (∀ r ∈ (writeEach tagAEAD (NewGCMWriter ⟨[], []⟩ [9, 9, 9, 9, 1, 2, 3, 4, 5, 6, 7, 8])
        [[1, 2, 3], [], [4]]).2, r.2 = none) ∧
    ∃ n, ∀ fuel, n ≤ fuel →
      drain tagAEAD (fun _ => 2) fuel 0
          (NewGCMReader (writeEach tagAEAD
            (NewGCMWriter ⟨[], []⟩ [9, 9, 9, 9, 1, 2, 3, 4, 5, 6, 7, 8])
            [[1, 2, 3], [], [4]]).1.w.out [9, 9, 9, 9, 1, 2, 3, 4, 5, 6, 7, 8]) =
        some ([[1, 2, 3], [], [4]].flatten, Err.eof) :=
  ⟨by decide,
   gcm_roundtrip tagAEAD tagAEAD_open_seal [9, 9, 9, 9, 1, 2, 3, 4, 5, 6, 7, 8]
     [[1, 2, 3], [], [4]] (fun _ => 2) (fun _ => Nat.succ_pos 1) (by decide)⟩

/-- C1 as stated fails: a single chunk of 2^32 bytes is rejected by `Write` ("chunk too
large"), nothing is emitted, and the reader reports `io.EOF` without delivering the chunk. -/
theorem gcm_roundtrip_unrestricted_fails :
    ¬ (∀ (gcm : AEAD), (∀ n p, gcm.Open n (gcm.Seal n p) = some p) →
        ∀ (nonce : Bytes) (chunks : List Bytes) (sizes : Nat → Nat),
          nonce.length = 12 → (∀ i, 0 < sizes i) →
          ∃ fuel, drain gcm sizes fuel 0
              (NewGCMReader (writeEach gcm (NewGCMWriter ⟨[], []⟩ nonce) chunks).1.w.out
                nonce) = some (chunks.flatten, Err.eof)) := by
  intro h
  obtain ⟨fuel, hf⟩ := h tagAEAD tagAEAD_open_seal [9, 9, 9, 9, 1, 2, 3, 4, 5, 6, 7, 8]
    [hugeChunk] (fun _ => 1) rfl (fun _ => Nat.one_pos)
  have hbig : 4294967295 < (tagAEAD.Seal
      (nextNonce (NewGCMWriter (⟨[], []⟩ : Sink) [9, 9, 9, 9, 1, 2, 3, 4, 5, 6, 7, 8]).base
        (NewGCMWriter (⟨[], []⟩ : Sink) [9, 9, 9, 9, 1, 2, 3, 4, 5, 6, 7, 8]).counter)
      hugeChunk).length := by
    rw [tagAEAD_seal_length, hugeChunk_length]
    omega
  have hw : (writeEach tagAEAD (NewGCMWriter ⟨[], []⟩ [9, 9, 9, 9, 1, 2, 3, 4, 5, 6, 7, 8])
      [hugeChunk]).1.w.out = [] := by
    rw [writeEach, writeEach, Write_tooLarge _ _ _ hbig]
    rfl
  rw [hw] at hf
  cases fuel with
  | zero => simp [drain] at hf
  | succ k =>
    simp only [NewGCMWriter, NewGCMReader, drain_exhausted, List.flatten_cons,
      List.flatten_nil, List.append_nil, Option.some.injEq, Prod.mk.injEq, and_true] at hf
    have := congrArg List.length hf
    rw [hugeChunk_length] at this
    simp at this

/-! ## C5: truncated streams -/

/-- C5 (the code departs from the claim): on a stream that ends right after a complete length
prefix declaring 5 ciphertext bytes, with none of them present, `gcmReader.Read` returns
`(0, io.EOF)`, the same value it returns at a chunk boundary, instead of a framing error. -/
theorem Read_header_only_stream_reports_eof :
    GcmReader.Read tagAEAD (NewGCMReader [5, 0, 0, 0] [9, 9, 9, 9, 1, 2, 3, 4, 5, 6, 7, 8]) 8 =
      ({ r := [], base := [9, 9, 9, 9, 1, 2, 3, 4, 5, 6, 7, 8], counter := 0, buf := [] }, [],
        some Err.eof) := by
  decide

/-- The truncations `Read` does report as a framing error (`io.ErrUnexpectedEOF`): 1 to 3
bytes of a length prefix, or a complete prefix followed by at least one but fewer than the
declared number of ciphertext bytes. -/
theorem Read_truncated_unexpectedEOF (gcm : AEAD) (s : GcmReader) (plen : Nat)
    (hb : s.buf = [])
    (ht : (0 < s.r.length ∧ s.r.length < 4) ∨
      (4 < s.r.length ∧ s.r.length - 4 < uint32 (s.r.take 4))) :
    (s.Read gcm plen).2 = ([], some Err.unexpectedEOF) := by
  unfold GcmReader.Read
  have hb0 : s.buf.length = 0 := by simp [hb]
  rw [if_pos hb0]
  rcases ht with ⟨h0, h4⟩ | ⟨h4, hL⟩
  · have e1 : readFull s.r 4 = ([], .error Err.unexpectedEOF) := by
      rw [readFull, if_neg (by decide), if_neg (by omega), if_pos h4]
    simp [e1]
  · have e1 : readFull s.r 4 = (s.r.drop 4, .ok (s.r.take 4)) := by
      rw [readFull, if_neg (by decide), if_neg (by omega), if_neg (by omega)]
    have hd : (s.r.drop 4).length = s.r.length - 4 := List.length_drop _ _
    have e2 : readFull (s.r.drop 4) (uint32 (s.r.take 4)) = ([], .error Err.unexpectedEOF) := by
      rw [readFull, if_neg (by omega), if_neg (by omega), if_pos (by omega)]
    simp [e1, e2]

/-! ## Splitting a session at a frame -/

theorem frames_append (gcm : AEAD) (base : Bytes) :
    ∀ (xs ys : List Bytes) (c : Nat), c < 18446744073709551616 →
      frames gcm base c (xs ++ ys) =
        frames gcm base c xs ++ frames gcm base ((c + xs.length) % 18446744073709551616) ys := by
  intro xs
  induction xs with
  | nil =>
    intro ys c hc
    have : (c + ([] : List Bytes).length) % 18446744073709551616 = c := by
      simp only [List.length_nil]; omega
    rw [this]
    simp [frames]
  | cons x xs ih =>
    intro ys c hc
    have e : ((c + 1) % 18446744073709551616 + xs.length) % 18446744073709551616
        = (c + (x :: xs).length) % 18446744073709551616 := by
      simp only [List.length_cons]; omega
    rw [List.cons_append, frames, frames, ih ys _ (Nat.mod_lt _ (by decide)), e,
      List.append_assoc]

theorem framesFit_append (gcm : AEAD) (base : Bytes) :
    ∀ (xs ys : List Bytes) (c : Nat), c < 18446744073709551616 →
      framesFit gcm base c (xs ++ ys) →
        framesFit gcm base c xs ∧
          framesFit gcm base ((c + xs.length) % 18446744073709551616) ys := by
  intro xs
  induction xs with
  | nil =>
    intro ys c hc h
    have : (c + ([] : List Bytes).length) % 18446744073709551616 = c := by
      simp only [List.length_nil]; omega
    rw [this]
    exact ⟨trivial, h⟩
  | cons x xs ih =>
    intro ys c hc h
    have e : ((c + 1) % 18446744073709551616 + xs.length) % 18446744073709551616
        = (c + (x :: xs).length) % 18446744073709551616 := by
      simp only [List.length_cons]; omega
    obtain ⟨h1, h2⟩ := h
    obtain ⟨h3, h4⟩ := ih ys _ (Nat.mod_lt _ (by decide)) h2
    rw [e] at h4
    exact ⟨⟨h1, h3⟩, h4⟩

theorem sessionAuth_append (gcm : AEAD) (base : Bytes) :
    ∀ (xs ys : List Bytes) (c : Nat), c < 18446744073709551616 →
      sessionAuth gcm base c (xs ++ ys) →
        framesOpen gcm base c xs ∧
          sessionAuth gcm base ((c + xs.length) % 18446744073709551616) ys := by
  intro xs
  induction xs with
  | nil =>
    intro ys c hc h
    have : (c + ([] : List Bytes).length) % 18446744073709551616 = c := by
      simp only [List.length_nil]; omega
    rw [this]
    exact ⟨trivial, h⟩
  | cons x xs ih =>
    intro ys c hc h
    have e : ((c + 1) % 18446744073709551616 + xs.length) % 18446744073709551616
        = (c + (x :: xs).length) % 18446744073709551616 := by
      simp only [List.length_cons]; omega
    obtain ⟨h1, h2⟩ := h
    obtain ⟨h3, h4⟩ := ih ys _ (Nat.mod_lt _ (by decide)) h2
    rw [e] at h4
    exact ⟨⟨h1.1, h3⟩, h4⟩

/-! ## Bit flips -/

theorem flipBit_length (bs : Bytes) (pos b : Nat) : (flipBit bs pos b).length = bs.length := by
  simp [flipBit]

theorem flipBit_ne (bs : Bytes) (pos b : Nat) (h : pos < bs.length) : flipBit bs pos b ≠ bs := by
  intro he
  have h1 : (flipBit bs pos b).getD pos 0 = bs.getD pos 0 := by rw [he]
  have h2 : (flipBit bs pos b).getD pos 0 = bs.getD pos 0 ^^^ 2 ^ b := by
    simp [flipBit, List.getD_eq_getElem?_getD, List.getElem?_set, h]
  rw [h2] at h1
  have h3 : bs.getD pos 0 ^^^ 2 ^ b = bs.getD pos 0 ^^^ 0 := by rw [h1, Nat.xor_zero]
  have h4 : 2 ^ b = 0 := Nat.xor_right_injective h3
  exact absurd h4 (by positivity)

theorem flipBit_append_right (xs ys : Bytes) (i b : Nat) :
    flipBit (xs ++ ys) (xs.length + i) b = xs ++ flipBit ys i b := by
  have hg : (xs ++ ys)[xs.length + i]? = ys[i]? := by
    rw [List.getElem?_append_right (by omega)]
    simp
  simp [flipBit, List.getD_eq_getElem?_getD, List.set_append, hg]

theorem flipBit_append_left (xs ys : Bytes) (i b : Nat) (h : i < xs.length) :
    flipBit (xs ++ ys) i b = flipBit xs i b ++ ys := by
  simp [flipBit, List.getD_eq_getElem?_getD, List.set_append, h, List.getElem?_append_left]

theorem flipBit_in_frame (pre ct post : Bytes) (i b : Nat) (hi : i < ct.length) :
    flipBit (pre ++ (frame ct ++ post)) (pre.length + 4 + i) b =
      pre ++ (frame (flipBit ct i b) ++ post) := by
  have h4 : pre.length + 4 + i = pre.length + ((putUint32 ct.length).length + i) := by
    rw [putUint32_length]; omega
  rw [h4, flipBit_append_right, frame, List.append_assoc, flipBit_append_right,
    flipBit_append_left _ _ _ _ hi, frame, flipBit_length, List.append_assoc]

theorem drain_reject (gcm : AEAD) (sizes : Nat → Nat) (base : Bytes) (c : Nat)
    (ct rest : Bytes) (i fuel : Nat) (hfit : ct.length ≤ 4294967295)
    (hopen : gcm.Open (nextNonce base c) ct = none) :
    drain gcm sizes (fuel + 1) i
        { r := frame ct ++ rest, base := base, counter := c, buf := [] } =
      some ([], Err.auth) := by
  rw [drain, Read_frame_reject gcm base c ct rest (sizes i) hfit hopen]

/-! ## C6: tamper detection -/

/-- C6: let a list of chunks `pre ++ p :: post` be written, every `Write` succeeding, with an
AEAD that on this session opens each sealed chunk and rejects every other ciphertext under
the same nonce. If one bit of the ciphertext-plus-tag bytes of the frame of `p` is flipped in
the emitted stream, then a reader with the same AEAD and base delivers exactly the chunks
before `p` and then fails with the authentication error: no byte of `p` or of a later chunk
is delivered. -/
theorem gcm_tamper_detected (gcm : AEAD) (nonce : Bytes) (pre : List Bytes) (p : Bytes)
    (post : List Bytes) (i b : Nat) (sizes : Nat → Nat) (hpos : ∀ i, 0 < sizes i)
    (hok : ∀ r ∈ (writeEach gcm (NewGCMWriter ⟨[], []⟩ nonce) (pre ++ p :: post)).2,
      r.2 = none)
    (hauth : sessionAuth gcm (base12 nonce) 0 (pre ++ p :: post))
    (hi : i < (gcm.Seal
      (nextNonce (base12 nonce) (pre.length % 18446744073709551616)) p).length) :
    ∃ n, ∀ fuel, n ≤ fuel →
      drain gcm sizes fuel 0
          (NewGCMReader
            (flipBit (writeEach gcm (NewGCMWriter ⟨[], []⟩ nonce) (pre ++ p :: post)).1.w.out
              ((frames gcm (base12 nonce) 0 pre).length + 4 + i) b) nonce) =
        some (pre.flatten, Err.auth) := by
  obtain ⟨hfit, hout, _⟩ :=
    writeEach_ok gcm (pre ++ p :: post) (NewGCMWriter ⟨[], []⟩ nonce) rfl hok
  have h0 : (0 : Nat) < 18446744073709551616 := by decide
  have hout' : (writeEach gcm (NewGCMWriter ⟨[], []⟩ nonce) (pre ++ p :: post)).1.w.out =
      frames gcm (base12 nonce) 0 (pre ++ p :: post) := by
    rw [hout]; simp [NewGCMWriter]
  replace hfit : framesFit gcm (base12 nonce) 0 (pre ++ p :: post) := hfit
  obtain ⟨hfpre, hfrest⟩ := framesFit_append gcm (base12 nonce) pre (p :: post) 0 h0 hfit
  obtain ⟨hopre, harest⟩ := sessionAuth_append gcm (base12 nonce) pre (p :: post) 0 h0 hauth
  rw [Nat.zero_add] at hfrest harest
  obtain ⟨hfp, _⟩ := hfrest
  obtain ⟨⟨_, hrej⟩, _⟩ := harest
  rw [hout', frames_append gcm (base12 nonce) pre (p :: post) 0 h0, Nat.zero_add, frames,
    flipBit_in_frame _ _ _ _ _ hi]
  obtain ⟨n, j, hn⟩ := drain_frames gcm sizes hpos (base12 nonce)
    (frame (flipBit (gcm.Seal (nextNonce (base12 nonce)
        (pre.length % 18446744073709551616)) p) i b) ++
      frames gcm (base12 nonce)
        ((pre.length % 18446744073709551616 + 1) % 18446744073709551616) post)
    pre 0 0 h0 hfpre hopre
  refine ⟨n + 1, fun fuel hfuel => ?_⟩
  obtain ⟨k, rfl⟩ : ∃ k, fuel = n + (k + 1) := ⟨fuel - n - 1, by omega⟩
  simp only [NewGCMReader]
  rw [hn (k + 1), Nat.zero_add,
    drain_reject gcm sizes _ _ _ _ _ _ (by rw [flipBit_length]; exact hfp)
      (hrej _ (flipBit_ne _ _ _ hi))]
  simp

/-- Witness of `gcm_tamper_detected`: three chunks, a bit of the second frame flipped. -/
theorem gcm_tamper_detected_witness :
    (∀ r ∈ (writeEach (pinAEAD [1, 2]) (NewGCMWriter ⟨[], []⟩ [9, 9, 9, 9, 1, 2, 3, 4, 5, 6, 7, 8])
        ([[1, 2]] ++ [1, 2] :: [[1, 2]])).2, r.2 = none) ∧
    ∃ n, ∀ fuel, n ≤ fuel →
      drain (pinAEAD [1, 2]) (fun _ => 3) fuel 0
          (NewGCMReader
            (flipBit (writeEach (pinAEAD [1, 2])
                (NewGCMWriter ⟨[], []⟩ [9, 9, 9, 9, 1, 2, 3, 4, 5, 6, 7, 8])
                ([[1, 2]] ++ [1, 2] :: [[1, 2]])).1.w.out
              ((frames (pinAEAD [1, 2]) (base12 [9, 9, 9, 9, 1, 2, 3, 4, 5, 6, 7, 8]) 0
                [[1, 2]]).length + 4 + 13) 7)
            [9, 9, 9, 9, 1, 2, 3, 4, 5, 6, 7, 8]) =
        some ([[1, 2]].flatten, Err.auth) :=
  ⟨by decide,
   gcm_tamper_detected (pinAEAD [1, 2]) [9, 9, 9, 9, 1, 2, 3, 4, 5, 6, 7, 8] [[1, 2]] [1, 2]
     [[1, 2]] 13 7 (fun _ => 3) (fun _ => Nat.succ_pos 2) (by decide)
     (by simp [sessionAuth, pinAEAD]) (by decide)⟩

/-! ## C7: the nonces handed to `Seal` -/

theorem putUint64_inj (a b : Nat) (ha : a < 18446744073709551616)
    (hb : b < 18446744073709551616) (h : putUint64 a = putUint64 b) : a = b := by
  simp only [putUint64, List.cons.injEq, and_true] at h
  omega

theorem nextNonce_inj (base : Bytes) (a b : Nat) (ha : a < 18446744073709551616)
    (hb : b < 18446744073709551616) (h : nextNonce base a = nextNonce base b) : a = b :=
  putUint64_inj a b ha hb (List.append_cancel_left h)

theorem Write_success (gcm : AEAD) (s : GcmWriter Sink) (p : Bytes)
    (h : (s.Write gcm Sink.write p).2.2 = none) :
    (s.Write gcm Sink.write p).1.base = s.base ∧
      (s.Write gcm Sink.write p).1.counter = (s.counter + 1) % 18446744073709551616 ∧
      (s.Write gcm Sink.write p).1.sealed = s.sealed ++ [(nextNonce s.base s.counter, p)] := by
  unfold GcmWriter.Write at h ⊢
  simp only at h ⊢
  by_cases hbig : (gcm.Seal (nextNonce s.base s.counter) p).length > 4294967295
  · simp [hbig] at h
  · rw [if_neg hbig] at h ⊢
    rcases h1 : s.w.write (putUint32 (gcm.Seal (nextNonce s.base s.counter) p).length)
      with ⟨w1, _ | e1⟩
    · dsimp only at h ⊢
      rcases h2 : w1.write (gcm.Seal (nextNonce s.base s.counter) p) with ⟨w2, _ | e2⟩
      · exact ⟨rfl, rfl, rfl⟩
      · simp [h1, h2] at h
    · simp [h1] at h

theorem Write_sealed (gcm : AEAD) (s : GcmWriter Sink) (p : Bytes) :
    (s.Write gcm Sink.write p).1.base = s.base ∧
      (s.Write gcm Sink.write p).1.sealed = s.sealed ++ [(nextNonce s.base s.counter, p)] := by
  unfold GcmWriter.Write
  simp only
  split
  · simp
  · split
    · simp
    · split <;> simp

theorem writeEach_sealed_ok (gcm : AEAD) :
    ∀ (chunks : List Bytes) (s : GcmWriter Sink), s.counter < 18446744073709551616 →
      (∀ r ∈ (writeEach gcm s chunks).2, r.2 = none) →
      (writeEach gcm s chunks).1.sealed.map Prod.fst =
        s.sealed.map Prod.fst ++
          (List.range chunks.length).map
            (fun k => nextNonce s.base ((s.counter + k) % 18446744073709551616)) := by
  intro chunks
  induction chunks with
  | nil => intro s _ _; simp [writeEach]
  | cons p ps ih =>
    intro s hc hok
    have h1 : (s.Write gcm Sink.write p).2.2 = none := hok (s.Write gcm Sink.write p).2 (by simp [writeEach])
    obtain ⟨hb, hcnt, hsl⟩ := Write_success gcm s p h1
    have hok' : ∀ r ∈ (writeEach gcm (s.Write gcm Sink.write p).1 ps).2, r.2 = none :=
      fun r hr => hok r (by simp only [writeEach]; exact List.mem_cons_of_mem _ hr)
    have hc' : (s.Write gcm Sink.write p).1.counter < 18446744073709551616 := by
      rw [hcnt]; exact Nat.mod_lt _ (by decide)
    have := ih (s.Write gcm Sink.write p).1 hc' hok'
    simp only [writeEach]
    rw [this, hb, hcnt, hsl, List.length_cons, List.range_succ_eq_map]
    have e0 : s.counter % 18446744073709551616 = s.counter := by omega
    have e1 : ∀ k, ((s.counter + 1) % 18446744073709551616 + k) % 18446744073709551616
        = (s.counter + (k + 1)) % 18446744073709551616 := by intro k; omega
    simp [e0, e1, Function.comp_def]

/-- When every `Write` succeeds and there are at most 2^64 of them, the nonces handed to
`Seal` are pairwise distinct. -/
theorem gcm_nonces_nodup_of_success (gcm : AEAD) (w : Sink) (nonce : Bytes)
    (chunks : List Bytes) (hlen : chunks.length ≤ 18446744073709551616)
    (hok : ∀ r ∈ (writeEach gcm (NewGCMWriter w nonce) chunks).2, r.2 = none) :
    ((writeEach gcm (NewGCMWriter w nonce) chunks).1.sealed.map Prod.fst).Nodup := by
  rw [writeEach_sealed_ok gcm chunks (NewGCMWriter w nonce)
    (show (0 : Nat) < 18446744073709551616 by decide) hok]
  simp only [NewGCMWriter, List.map_nil, List.nil_append, Nat.zero_add]
  refine List.Nodup.map_on ?_ (List.nodup_range _)
  intro x hx y hy hxy
  have hx' : x < chunks.length := List.mem_range.mp hx
  have hy' : y < chunks.length := List.mem_range.mp hy
  have := nextNonce_inj _ _ _ (Nat.mod_lt _ (by decide)) (Nat.mod_lt _ (by decide)) hxy
  omega

/-- C7 (the code departs from the claim): when the sink rejects the first `Write`, the
counter is not advanced although `Seal` has been called, and the next `Write` seals a
different chunk under the same nonce (counter 0). -/
theorem gcmWriter_failed_write_reuses_nonce :
    (writeEach tagAEAD (NewGCMWriter ⟨[], [true]⟩ [9, 9, 9, 9, 1, 2, 3, 4, 5, 6, 7, 8])
        [[1], [2]]).2 = [(0, some Err.io), (1, none)] ∧
    (writeEach tagAEAD (NewGCMWriter ⟨[], [true]⟩ [9, 9, 9, 9, 1, 2, 3, 4, 5, 6, 7, 8])
        [[1], [2]]).1.sealed =
      [([9, 9, 9, 9, 0, 0, 0, 0, 0, 0, 0, 0], [1]),
       ([9, 9, 9, 9, 0, 0, 0, 0, 0, 0, 0, 0], [2])] := by
  decide

/-! ## The runner -/

theorem runStages_append {σ : Type} (pre : List (Plugin σ)) (c ck : Context σ)
    (h : StagesOK pre c ck) :
    ∀ (rest : List (Plugin σ)) (i : Nat) (log : List Event),
      runStages (pre ++ rest) i c log =
        runStages rest (i + pre.length) ck (log ++ stageEvents i pre.length) := by
  induction h with
  | nil c => intro rest i log; simp [stageEvents]
  | cons p ps c c1 c2 hp _ ih =>
    intro rest i log
    have e : i + (p :: ps).length = i + 1 + ps.length := by simp only [List.length_cons]; omega
    rw [List.cons_append, runStages, hp]
    simp only
    rw [ih rest (i + 1) _, e]
    simp [stageEvents, List.range'_succ]

theorem runFinalizers_append {σ : Type} (pre : List (σ → σ × Option Err)) (d dk : σ)
    (h : FinalizersOK pre d dk) :
    ∀ (rest : List (σ → σ × Option Err)) (i : Nat) (log : List Event),
      runFinalizers (pre ++ rest) i d log =
        runFinalizers rest (i + pre.length) dk (log ++ finalizerEvents i pre.length) := by
  induction h with
  | nil d => intro rest i log; simp [finalizerEvents]
  | cons f fs d d1 d2 hf _ ih =>
    intro rest i log
    have e : i + (f :: fs).length = i + 1 + fs.length := by simp only [List.length_cons]; omega
    rw [List.cons_append, runFinalizers, hf]
    simp only
    rw [ih rest (i + 1) _, e]
    simp [finalizerEvents, List.range'_succ]

theorem runStages_err_none {σ : Type} :
    ∀ (order : List (Plugin σ)) (i : Nat) (c : Context σ) (log : List Event),
      (runStages order i c log).err = none →
        StagesOK order c (runStages order i c log).ctx := by
  intro order
  induction order with
  | nil => intro i c log _; exact StagesOK.nil c
  | cons p ps ih =>
    intro i c log h
    rcases hp : p.Apply c with ⟨c1, _ | e⟩
    · simp only [runStages, hp] at h ⊢
      exact StagesOK.cons p ps c c1 _ hp (ih _ _ _ h)
    · simp [runStages, hp] at h

theorem runFinalizers_err_none {σ : Type} :
    ∀ (fs : List (σ → σ × Option Err)) (i : Nat) (d : σ) (log : List Event),
      (runFinalizers fs i d log).2.1 = none →
        FinalizersOK fs d (runFinalizers fs i d log).1 := by
  intro fs
  induction fs with
  | nil => intro i d log _; exact FinalizersOK.nil d
  | cons f fs ih =>
    intro i d log h
    rcases hf : f d with ⟨d1, _ | e⟩
    · simp only [runFinalizers, hf] at h ⊢
      exact FinalizersOK.cons f fs d d1 _ hf (ih _ _ _ h)
    · simp [runFinalizers, hf] at h

theorem stageEvents_succ (n : Nat) :
    stageEvents 0 (n + 1) = stageEvents 0 n ++ [Event.stage n] := by
  simp [stageEvents, List.range'_concat]

theorem finalizerEvents_succ (n : Nat) :
    finalizerEvents 0 (n + 1) = finalizerEvents 0 n ++ [Event.finalizer n] := by
  simp [finalizerEvents, List.range'_concat]

theorem runStages_fail {σ : Type} (ctx ck c' : Context σ) (pre post : List (Plugin σ))
    (p : Plugin σ) (e : Err) (hpre : StagesOK pre ctx ck) (hp : p.Apply ck = (c', some e)) :
    runStages (pre ++ p :: post) 0 ctx [] =
      ⟨c', some (Err.step p.Name e), stageEvents 0 (pre.length + 1)⟩ := by
  rw [runStages_append pre ctx ck hpre, runStages, hp, stageEvents_succ]
  simp

theorem runStages_ok {σ : Type} (ctx cn : Context σ) (order : List (Plugin σ))
    (h : StagesOK order ctx cn) :
    runStages order 0 ctx [] = ⟨cn, none, stageEvents 0 order.length⟩ := by
  have := runStages_append order ctx cn h [] 0 []
  rw [List.append_nil] at this
  rw [this, runStages]
  simp

theorem runFinalizers_fail {σ : Type} (d dk d' : σ) (fpre fpost : List (σ → σ × Option Err))
    (f : σ → σ × Option Err) (e : Err) (log : List Event)
    (hpre : FinalizersOK fpre d dk) (hf : f dk = (d', some e)) :
    runFinalizers (fpre ++ f :: fpost) 0 d log =
      (d', some e, log ++ finalizerEvents 0 (fpre.length + 1)) := by
  rw [runFinalizers_append fpre d dk hpre, runFinalizers, hf, finalizerEvents_succ]
  simp

theorem runFinalizers_ok {σ : Type} (d dn : σ) (fs : List (σ → σ × Option Err))
    (log : List Event) (h : FinalizersOK fs d dn) :
    runFinalizers fs 0 d log = (dn, none, log ++ finalizerEvents 0 fs.length) := by
  have := runFinalizers_append fs d dn h [] 0 log
  rw [List.append_nil] at this
  rw [this, runFinalizers]

/-! ## C8: runner sequencing -/

/-- C8: `Run` applies the stages in list order. (1) If stage `p` is the first to fail, the
calls made are exactly the stages up to and including `p` (no later stage, no finalizer),
and the error is `step <p.Name>: <the stage's error>`. (2) If every stage succeeds, the
finalizers registered in the context are run in registration order and the first failing one
makes `Run` fail with no later finalizer run. (3) If every stage and every finalizer
succeeds, `Run` returns no error after calling all of them in order. (4) `Run` returns no
error only if every stage and every finalizer succeeded. -/
theorem Run_sequencing {σ : Type} (ctx : Context σ) (order : List (Plugin σ)) :
    (∀ (pre post : List (Plugin σ)) (p : Plugin σ) (ck c' : Context σ) (e : Err),
        order = pre ++ p :: post → StagesOK pre ctx ck → p.Apply ck = (c', some e) →
        Run ctx order = ⟨c', some (Err.step p.Name e), stageEvents 0 (pre.length + 1)⟩) ∧
    (∀ (cn : Context σ) (fpre fpost : List (σ → σ × Option Err)) (f : σ → σ × Option Err)
        (dk d' : σ) (e : Err),
        StagesOK order ctx cn → cn.Finalizers = fpre ++ f :: fpost →
        FinalizersOK fpre cn.data dk → f dk = (d', some e) →
        (Run ctx order).err ≠ none ∧
          (Run ctx order).log =
            stageEvents 0 order.length ++ finalizerEvents 0 (fpre.length + 1) ∧
          (Run ctx order).ctx = { cn with data := d' }) ∧
    (∀ (cn : Context σ) (d : σ),
        StagesOK order ctx cn → FinalizersOK cn.Finalizers cn.data d →
        Run ctx order =
          ⟨{ cn with data := d }, none,
            stageEvents 0 order.length ++ finalizerEvents 0 cn.Finalizers.length⟩) ∧
    ((Run ctx order).err = none →
        ∃ (cn : Context σ) (d : σ),
          StagesOK order ctx cn ∧ FinalizersOK cn.Finalizers cn.data d) := by
  refine ⟨?_, ?_, ?_, ?_⟩
  · intro pre post p ck c' e ho hpre hp
    subst ho
    simp only [Run, runStages_fail ctx ck c' pre post p e hpre hp]
  · intro cn fpre fpost f dk d' e hs hfin hpre hf
    have h1 := runStages_ok ctx cn order hs
    have h2 := runFinalizers_fail cn.data dk d' fpre fpost f e (stageEvents 0 order.length)
      hpre hf
    rw [← hfin] at h2
    simp only [Run, h1, h2]
    simp
  · intro cn d hs hf
    have h1 := runStages_ok ctx cn order hs
    have h2 := runFinalizers_ok cn.data d cn.Finalizers (stageEvents 0 order.length) hf
    simp only [Run, h1, h2]
  · intro h
    have hs : (runStages order 0 ctx []).err = none := by
      rcases hr : runStages order 0 ctx [] with ⟨c1, _ | e, log⟩
      · rfl
      · simp [Run, hr] at h
    have hok := runStages_err_none order 0 ctx [] hs
    refine ⟨(runStages order 0 ctx []).ctx, _, hok, runFinalizers_err_none _ 0 _
      (runStages order 0 ctx []).log ?_⟩
    rcases hr : runStages order 0 ctx [] with ⟨c1, _ | e, log⟩
    · simpa [Run, hr] using h
    · simp [hr] at hs

/-- Witness of `Run_sequencing`: the second of three stages fails. -/
theorem Run_sequencing_witness :
    Run (⟨0, []⟩ : Context Nat) [countStage, failStage, countStage] =
      ⟨⟨1, []⟩, some (Err.step failStage.Name Err.gzipHeader), stageEvents 0 2⟩ :=
  (Run_sequencing (⟨0, []⟩ : Context Nat) [countStage, failStage, countStage]).1
    [countStage] [countStage] failStage ⟨1, []⟩ ⟨1, []⟩ Err.gzipHeader rfl
    (StagesOK.cons countStage [] ⟨0, []⟩ ⟨1, []⟩ ⟨1, []⟩ rfl (StagesOK.nil _)) rfl

/-! ## C9: how a finalizer failure is reported -/

/-- C9 (amended): when every stage succeeds and a finalizer is the first to fail, `Run`
returns that finalizer's own error unchanged: it is not wrapped and names no stage or
finalizer. -/
theorem Run_finalizer_error_bare {σ : Type} (ctx cn : Context σ) (order : List (Plugin σ))
    (fpre fpost : List (σ → σ × Option Err)) (f : σ → σ × Option Err) (dk d' : σ) (e : Err)
    (hs : StagesOK order ctx cn) (hfin : cn.Finalizers = fpre ++ f :: fpost)
    (hpre : FinalizersOK fpre cn.data dk) (hf : f dk = (d', some e)) :
    (Run ctx order).err = some e := by
  have h1 := runStages_ok ctx cn order hs
  have h2 := runFinalizers_fail cn.data dk d' fpre fpost f e (stageEvents 0 order.length)
    hpre hf
  rw [← hfin] at h2
  simp only [Run, h1, h2]

/-- Witness of `Run_finalizer_error_bare`: one stage registers a failing finalizer. -/
theorem Run_finalizer_error_bare_witness :
    (Run (⟨0, []⟩ : Context Nat) [countStage, registerStage]).err =
      some (Err.text "integrity sha256 mismatch") :=
  Run_finalizer_error_bare ⟨0, []⟩
    ⟨1, [fun d => (d, some (Err.text "integrity sha256 mismatch"))]⟩
    [countStage, registerStage] [] []
    (fun d => (d, some (Err.text "integrity sha256 mismatch"))) 1 1
    (Err.text "integrity sha256 mismatch")
    (StagesOK.cons countStage [registerStage] ⟨0, []⟩ ⟨1, []⟩ _ rfl
      (StagesOK.cons registerStage [] ⟨1, []⟩ _ _ rfl (StagesOK.nil _)))
    rfl (FinalizersOK.nil _) rfl

/-- C9 as stated fails: with a single stage that registers a failing finalizer, the error
`Run` returns is the finalizer's bare error, not a `step <name>: ...` wrapper. -/
theorem Run_finalizer_error_not_wrapped :
    (Run (⟨0, []⟩ : Context Nat) [registerStage]).err =
        some (Err.text "integrity sha256 mismatch") ∧
      ∀ (name : String) (inner : Err),
        (Run (⟨0, []⟩ : Context Nat) [registerStage]).err ≠ some (Err.step name inner) := by
  have h : (Run (⟨0, []⟩ : Context Nat) [registerStage]).err =
      some (Err.text "integrity sha256 mismatch") := rfl
  refine ⟨h, fun name inner hne => ?_⟩
  rw [h] at hne
  cases hne

/-! ## C2: backup then restore with compression enabled -/

/-- C2 (the code departs from the claim): on the input `hello world` with passphrase `p` and
`--compress=true`, the backup run succeeds and records `integrity.sha256`, but the artifact
is the gzip stream of the sealed frames; the restore run against that artifact and the same
controller fails in the `compress` stage (the decoder reads the gzip header as a length
prefix), and nothing is written to the output. -/
theorem backup_restore_compressed_fails :
    (cmdDD toyLibs "backup" "p" true helloWorld).err = none ∧
    asStr ((asObj (ctrlGet (cmdDD toyLibs "backup" "p" true helloWorld).ctx.data.Controller
      "integrity")).bind (fun m => mapGet m "sha256")) = some "5c" ∧
    (cmdDD toyLibs "restore" "p" true
      (worldAfter (cmdDD toyLibs "backup" "p" true helloWorld))).err =
        some (Err.step "compress" Err.unexpectedEOF) ∧
    (cmdDD toyLibs "restore" "p" true
      (worldAfter (cmdDD toyLibs "backup" "p" true helloWorld))).artifact = [] := by
  decide

/-! ## C3: the order of compression and encryption -/

/-- C3 (the code departs from the claim): with compression and encryption enabled, the
backup of `hello world` leaves in the destination the gzip stream of the sealed frame of the
plaintext, `gzip(frames(plaintext))`, not the frames of the compressed plaintext; a restore
run does decrypt before it decompresses: given `frames(gzip(plaintext))` and the same
controller it succeeds and writes the plaintext. -/
theorem backup_encrypts_before_compressing :
    (cmdDD toyLibs "backup" "p" true helloWorld).artifact =
      toyLibs.gzip (frames tagAEAD [9, 9, 9, 9, 1, 2, 3, 4, 5, 6, 7, 8] 0
        [[104, 101, 108, 108, 111, 32, 119, 111, 114, 108, 100]]) ∧
    (cmdDD toyLibs "backup" "p" true helloWorld).artifact ≠
      frames tagAEAD [9, 9, 9, 9, 1, 2, 3, 4, 5, 6, 7, 8] 0
        [toyLibs.gzip [104, 101, 108, 108, 111, 32, 119, 111, 114, 108, 100]] ∧
    (cmdDD toyLibs "restore" "p" true
      { (cmdDD toyLibs "backup" "p" true helloWorld).ctx.data.world with
        input := some (frames tagAEAD [9, 9, 9, 9, 1, 2, 3, 4, 5, 6, 7, 8] 0
          [toyLibs.gzip [104, 101, 108, 108, 111, 32, 119, 111, 114, 108, 100]]) }).err = none ∧
    (cmdDD toyLibs "restore" "p" true
      { (cmdDD toyLibs "backup" "p" true helloWorld).ctx.data.world with
        input := some (frames tagAEAD [9, 9, 9, 9, 1, 2, 3, 4, 5, 6, 7, 8] 0
          [toyLibs.gzip [104, 101, 108, 108, 111, 32, 119, 111, 114, 108, 100]]) }).artifact =
      [104, 101, 108, 108, 111, 32, 119, 111, 114, 108, 100] := by
  decide

/-! ## C4: what the integrity digest covers -/

/-- C4 (the code departs from the claim): in a backup of `hello world` with encryption
enabled (compression off) the hasher receives the plaintext, not the bytes written to the
destination, and the recorded `integrity.sha256` is the digest of the plaintext; in the
restore run the hasher again receives the decrypted plaintext, not the bytes read from the
artifact. -/
theorem integrity_digest_covers_plaintext :
    (cmdDD toyLibs "backup" "p" false helloWorld).err = none ∧
    (cmdDD toyLibs "backup" "p" false helloWorld).ctx.data.Hasher =
      some [104, 101, 108, 108, 111, 32, 119, 111, 114, 108, 100] ∧
    (cmdDD toyLibs "backup" "p" false helloWorld).artifact =
      frames tagAEAD [9, 9, 9, 9, 1, 2, 3, 4, 5, 6, 7, 8] 0
        [[104, 101, 108, 108, 111, 32, 119, 111, 114, 108, 100]] ∧
    asStr ((asObj (ctrlGet (cmdDD toyLibs "backup" "p" false helloWorld).ctx.data.Controller
      "integrity")).bind (fun m => mapGet m "sha256")) =
      some (hexString (toyLibs.sha256 [104, 101, 108, 108, 111, 32, 119, 111, 114, 108, 100])) ∧
    hexString (toyLibs.sha256 [104, 101, 108, 108, 111, 32, 119, 111, 114, 108, 100]) ≠
      hexString (toyLibs.sha256 (cmdDD toyLibs "backup" "p" false helloWorld).artifact) ∧
    (cmdDD toyLibs "restore" "p" false
      (worldAfter (cmdDD toyLibs "backup" "p" false helloWorld))).err = none ∧
    (cmdDD toyLibs "restore" "p" false
      (worldAfter (cmdDD toyLibs "backup" "p" false helloWorld))).ctx.data.Hasher =
      some [104, 101, 108, 108, 111, 32, 119, 111, 114, 108, 100] := by
  decide

/-! ## C10: an existing compression decision is obeyed -/

theorem Meta_Apply_existing (ctx : Context Pipe) (c : Ctrl)
    (hjson : ctx.data.world.json = JsonFile.doc c) :
    Meta.Apply ctx = ({ ctx with data := { ctx.data with Controller := some c } }, none) := by
  simp [Meta.Apply, LoadController, hjson]

/-- C10: when the controller file exists and its `compress.enabled` is the boolean `true`,
then for every seed and mode `Meta.Apply` succeeds and the following `Compress.Apply` leaves
the record exactly as loaded (`compress.enabled` still `true`), performs no `SaveController`
call and does not touch the seed, and takes the enabled branch: in backup mode it succeeds
and wraps the sink in a gzip writer; in restore mode it installs the reader of
`gzip.NewReader` over the source, or fails with that call's error. -/
theorem compress_obeys_existing_decision (L : Libs) (ctx : Context Pipe) (c : Ctrl) (m : Obj)
    (hjson : ctx.data.world.json = JsonFile.doc c)
    (hc : mapGet c "compress" = some (StageVal.obj m))
    (hen : mapGet m "enabled" = some (Any.bool true)) :
    (Meta.Apply ctx).2 = none ∧
    (Compress.Apply L (Meta.Apply ctx).1).1.data.Controller = some c ∧
    (Compress.Apply L (Meta.Apply ctx).1).1.data.world = ctx.data.world ∧
    (Compress.Apply L (Meta.Apply ctx).1).1.data.Seed = ctx.data.Seed ∧
    (ctx.data.Mode = "backup" → ∀ w, ctx.data.W = some w →
      (Compress.Apply L (Meta.Apply ctx).1).2 = none ∧
      (Compress.Apply L (Meta.Apply ctx).1).1.data.W =
        some ⟨WKind.gzip :: w.kinds, (([], false), w.st)⟩) ∧
    (ctx.data.Mode ≠ "backup" → ∀ r, ctx.data.R = some r →
      (∀ e, gzipNewReader L r = .error e →
        (Compress.Apply L (Meta.Apply ctx).1).2 = some e) ∧
      (∀ zr, gzipNewReader L r = .ok zr →
        (Compress.Apply L (Meta.Apply ctx).1).2 = none ∧
        (Compress.Apply L (Meta.Apply ctx).1).1.data.R = some zr)) := by
  rw [Meta_Apply_existing ctx c hjson]
  obtain ⟨⟨Mode, Ctl, Seed, R, W, H, FP, world⟩, fins⟩ := ctx
  simp only at hjson ⊢
  by_cases hmode : Mode = "backup"
  · subst hmode
    cases W with
    | none => simp [Compress.Apply, stageObj, ctrlGet, hc, asObj, hen, asBool]
    | some w => simp [Compress.Apply, stageObj, ctrlGet, hc, asObj, hen, asBool]
  · cases R with
    | none => simp [Compress.Apply, stageObj, ctrlGet, hc, asObj, hen, asBool, hmode]
    | some r =>
      cases hz : gzipNewReader L r with
      | error e => simp [Compress.Apply, stageObj, ctrlGet, hc, asObj, hen, asBool, hmode, hz]
      | ok zr => simp [Compress.Apply, stageObj, ctrlGet, hc, asObj, hen, asBool, hmode, hz]

/-- Witness of `compress_obeys_existing_decision`: the caller passes `--compress=false`
against a controller file that says `true`. -/
theorem compress_obeys_existing_decision_witness :
    (Compress.Apply toyLibs
        (Meta.Apply (initialContext "backup" "p" false decidedWorld)).1).1.data.Controller =
      some [("diskio", StageVal.obj []), ("meta", StageVal.obj []),
        ("compress", StageVal.obj [("enabled", Any.bool true)]),
        ("crypto", StageVal.obj []), ("integrity", StageVal.obj []), ("copy", StageVal.obj [])] ∧
    (Compress.Apply toyLibs
        (Meta.Apply (initialContext "backup" "p" false decidedWorld)).1).1.data.world =
      decidedWorld :=
  ⟨(compress_obeys_existing_decision toyLibs (initialContext "backup" "p" false decidedWorld)
      _ [("enabled", Any.bool true)] rfl (by decide) (by decide)).2.1,
   (compress_obeys_existing_decision toyLibs (initialContext "backup" "p" false decidedWorld)
      _ [("enabled", Any.bool true)] rfl (by decide) (by decide)).2.2.1⟩

/-! ## The writer chain of a backup, for every library behaviour -/

theorem chunksOf_flatten (n : Nat) (hn : 0 < n) :
    ∀ (fuel : Nat) (bs : Bytes), bs.length ≤ fuel → (chunksOf n fuel bs).flatten = bs := by
  intro fuel
  induction fuel with
  | zero =>
    intro bs h
    have : bs = [] := List.length_eq_zero.mp (Nat.le_zero.mp h)
    simp [chunksOf, this]
  | succ k ih =>
    intro bs h
    by_cases hb : bs = []
    · simp [chunksOf, hb]
    · have hlen : 0 < bs.length := List.length_pos.mpr hb
      have hd : (bs.drop n).length ≤ k := by
        simp only [List.length_drop]; omega
      simp [chunksOf, hb, ih _ hd]

theorem write_tee_gcm_gzip (a : AEAD) (s : GcmWriter ((Bytes × Bool) × Sink)) (h p : Bytes)
    (hfit : (a.Seal (nextNonce s.base s.counter) p).length ≤ 4294967295) :
    WState.write [WKind.tee, WKind.gcm a, WKind.gzip] s h p =
      (({ w := ((s.w.1.1 ++ frame (a.Seal (nextNonce s.base s.counter) p), s.w.1.2), s.w.2),
          base := s.base, counter := (s.counter + 1) % 18446744073709551616,
          sealed := s.sealed ++ [(nextNonce s.base s.counter, p)] } :
          GcmWriter ((Bytes × Bool) × Sink)), h ++ p, none) := by
  have hb : ¬ (a.Seal (nextNonce s.base s.counter) p).length > 4294967295 := by omega
  simp [WState.write, GcmWriter.Write, hb, frame]

theorem writeChunks_tee_gcm_gzip (a : AEAD) :
    ∀ (chunks : List Bytes) (s : GcmWriter ((Bytes × Bool) × Sink)) (h : Bytes),
      framesFit a s.base s.counter chunks →
      (WState.writeChunks [WKind.tee, WKind.gcm a, WKind.gzip] s h chunks).2 =
          (h ++ chunks.flatten, none) ∧
        (WState.writeChunks [WKind.tee, WKind.gcm a, WKind.gzip] s h chunks).1.w =
          ((s.w.1.1 ++ frames a s.base s.counter chunks, s.w.1.2), s.w.2) := by
  intro chunks
  induction chunks with
  | nil => intro s h _; simp [WState.writeChunks, frames]
  | cons p ps ih =>
    intro s h hfit
    obtain ⟨hp, hps⟩ := hfit
    rw [WState.writeChunks, write_tee_gcm_gzip a s h p hp]
    simp only
    obtain ⟨h1, h2⟩ := ih
      ({ w := ((s.w.1.1 ++ frame (a.Seal (nextNonce s.base s.counter) p), s.w.1.2), s.w.2),
         base := s.base, counter := (s.counter + 1) % 18446744073709551616,
         sealed := s.sealed ++ [(nextNonce s.base s.counter, p)] } :
         GcmWriter ((Bytes × Bool) × Sink)) (h ++ p) hps
    rw [h1, h2]
    simp [frames]

/-- The `io.CopyBuffer` of a backup whose sink was wrapped by `Compress.Apply`, then
`Crypto.Apply`, then `Integrity.Apply`: for every library behaviour and every input whose
sealed chunks fit the length prefix, the copy succeeds, the hasher has received the
plaintext, and the output file holds the gzip stream of the sealed frames. -/
theorem Copy_Apply_compress_crypto_chain (L : Libs) (ctx : Context Pipe) (a : AEAD)
    (nonce data : Bytes)
    (hR : ctx.data.R = some { bytes := data, err := Err.eof, tapped := [] })
    (hW : ctx.data.W = some ⟨[WKind.tee, WKind.gcm a, WKind.gzip],
      (NewGCMWriter ((([], false) : Bytes × Bool), ({ out := [], script := [] } : Sink)) nonce :
        GcmWriter ((Bytes × Bool) × Sink))⟩)
    (hH : ctx.data.Hasher = some [])
    (hfit : framesFit a (base12 nonce) 0 (chunksOf 8388608 data.length data)) :
    (Copy.Apply L ctx).2 = none ∧
    (Copy.Apply L ctx).1.data.Hasher = some data ∧
    (⟨(Copy.Apply L ctx).1, none, []⟩ : RunResult Pipe).artifact =
      L.gzip (frames a (base12 nonce) 0 (chunksOf 8388608 data.length data)) := by
  obtain ⟨h1, h2⟩ := writeChunks_tee_gcm_gzip a (chunksOf 8388608 data.length data)
    (NewGCMWriter ((([], false) : Bytes × Bool), ({ out := [], script := [] } : Sink)) nonce)
    [] hfit
  have hflat := chunksOf_flatten 8388608 (by decide) data.length data (le_refl _)
  rw [hflat] at h1
  simp only [NewGCMWriter, List.nil_append] at h1 h2
  simp [Copy.Apply, hR, hW, hH, NewGCMWriter, h1, h2, RunResult.artifact, Writer.file,
    WState.file, WState.close, WState.write, Sink.write]

theorem write_tee_gcm (a : AEAD) (s : GcmWriter Sink) (h p : Bytes) (hs : s.w.script = [])
    (hfit : (a.Seal (nextNonce s.base s.counter) p).length ≤ 4294967295) :
    WState.write [WKind.tee, WKind.gcm a] s h p =
      (({ w := { out := s.w.out ++ frame (a.Seal (nextNonce s.base s.counter) p), script := [] },
          base := s.base, counter := (s.counter + 1) % 18446744073709551616,
          sealed := s.sealed ++ [(nextNonce s.base s.counter, p)] } : GcmWriter Sink),
        h ++ p, none) := by
  have hb : ¬ (a.Seal (nextNonce s.base s.counter) p).length > 4294967295 := by omega
  simp [WState.write, GcmWriter.Write, hb, frame, Sink.write, hs]

theorem writeChunks_tee_gcm (a : AEAD) :
    ∀ (chunks : List Bytes) (s : GcmWriter Sink) (h : Bytes), s.w.script = [] →
      framesFit a s.base s.counter chunks →
      (WState.writeChunks [WKind.tee, WKind.gcm a] s h chunks).2 =
          (h ++ chunks.flatten, none) ∧
        (WState.writeChunks [WKind.tee, WKind.gcm a] s h chunks).1.w.out =
          s.w.out ++ frames a s.base s.counter chunks := by
  intro chunks
  induction chunks with
  | nil => intro s h _ _; simp [WState.writeChunks, frames]
  | cons p ps ih =>
    intro s h hs hfit
    obtain ⟨hp, hps⟩ := hfit
    rw [WState.writeChunks, write_tee_gcm a s h p hs hp]
    simp only
    obtain ⟨h1, h2⟩ := ih
      ({ w := { out := s.w.out ++ frame (a.Seal (nextNonce s.base s.counter) p), script := [] },
         base := s.base, counter := (s.counter + 1) % 18446744073709551616,
         sealed := s.sealed ++ [(nextNonce s.base s.counter, p)] } : GcmWriter Sink)
      (h ++ p) rfl hps
    rw [h1, h2]
    simp [frames]

/-- The `io.CopyBuffer` of a backup whose sink was wrapped by `Crypto.Apply` and then
`Integrity.Apply` (compression off): for every library behaviour and every input whose
sealed chunks fit the length prefix, the copy succeeds, the output file holds the sealed
frames, and the hasher has received the plaintext. -/
theorem Copy_Apply_crypto_chain (L : Libs) (ctx : Context Pipe) (a : AEAD)
    (nonce data : Bytes)
    (hR : ctx.data.R = some { bytes := data, err := Err.eof, tapped := [] })
    (hW : ctx.data.W = some ⟨[WKind.tee, WKind.gcm a],
      (NewGCMWriter ({ out := [], script := [] } : Sink) nonce : GcmWriter Sink)⟩)
    (hH : ctx.data.Hasher = some [])
    (hfit : framesFit a (base12 nonce) 0 (chunksOf 8388608 data.length data)) :
    (Copy.Apply L ctx).2 = none ∧
    (Copy.Apply L ctx).1.data.Hasher = some data ∧
    (⟨(Copy.Apply L ctx).1, none, []⟩ : RunResult Pipe).artifact =
      frames a (base12 nonce) 0 (chunksOf 8388608 data.length data) := by
  obtain ⟨h1, h2⟩ := writeChunks_tee_gcm a (chunksOf 8388608 data.length data)
    (NewGCMWriter ({ out := [], script := [] } : Sink) nonce) [] rfl hfit
  have hflat := chunksOf_flatten 8388608 (by decide) data.length data (le_refl _)
  rw [hflat] at h1
  simp only [NewGCMWriter, List.nil_append] at h1 h2
  simp [Copy.Apply, hR, hW, hH, NewGCMWriter, h1, h2, RunResult.artifact, Writer.file,
    WState.file, WState.close]

theorem gzip_magic_len : uint32 [31, 139, 8, 0] = 559903 := by decide

theorem Read_gzip_magic (a : AEAD) (base rest : Bytes)
    (h0 : 0 < rest.length) (hlen : rest.length < 559903) :
    (GcmReader.Read a
        { r := 31 :: 139 :: 8 :: 0 :: rest, base := base, counter := 0, buf := [] } 0).2 =
      ([], some Err.unexpectedEOF) := by
  apply Read_truncated_unexpectedEOF
  · rfl
  · right
    have ht : (31 :: 139 :: 8 :: 0 :: rest).take 4 = [31, 139, 8, 0] := rfl
    have hl : (31 :: 139 :: 8 :: 0 :: rest).length = rest.length + 4 := rfl
    show 4 < (31 :: 139 :: 8 :: 0 :: rest).length ∧
      (31 :: 139 :: 8 :: 0 :: rest).length - 4 < uint32 ((31 :: 139 :: 8 :: 0 :: rest).take 4)
    rw [ht, hl, gzip_magic_len]
    omega

theorem readToEnd_gzip_magic (a : AEAD) (base rest : Bytes) (fuel : Nat)
    (h0 : 0 < rest.length) (hlen : rest.length < 559903) :
    GcmReader.readToEnd a (fuel + 1)
        { r := 31 :: 139 :: 8 :: 0 :: rest, base := base, counter := 0, buf := [] } =
      ([], Err.unexpectedEOF) := by
  have h := Read_gzip_magic a base rest h0 hlen
  rcases hR : GcmReader.Read a
      { r := 31 :: 139 :: 8 :: 0 :: rest, base := base, counter := 0, buf := [] } 0
    with ⟨s1, out, err⟩
  rw [hR] at h
  cases h
  rw [GcmReader.readToEnd, hR]

/-- A `gcmReader` over a stream that starts with the header of a `gzip.Writer`
(`1f 8b 08 00`, read as the length 559903) and is shorter than that length fails its
first `Read` with `io.ErrUnexpectedEOF`, and so does `gzip.NewReader` over it, for every
AEAD and library behaviour. -/
theorem gzipNewReader_over_gcm_of_gzip_stream (L : Libs) (a : AEAD) (nonce rest : Bytes)
    (h0 : 0 < rest.length) (hlen : rest.length < 559903) :
    gzipNewReader L (gcmReaderOver a nonce
        { bytes := 31 :: 139 :: 8 :: 0 :: rest, err := Err.eof, tapped := [] }) =
      .error Err.unexpectedEOF := by
  have h := readToEnd_gzip_magic a (base12 nonce) rest
    (31 :: 139 :: 8 :: 0 :: rest).length h0 hlen
  have hg : gcmReaderOver a nonce
      { bytes := 31 :: 139 :: 8 :: 0 :: rest, err := Err.eof, tapped := [] } =
      { bytes := [], err := Err.unexpectedEOF, tapped := [] } := by
    simp only [gcmReaderOver, NewGCMReader, h]
    simp
  rw [hg]
  simp [gzipNewReader]

/-! ## C17: the frame one `Write` emits -/

theorem Sink_write_ok (s : Sink) (p : Bytes) (h : (s.write p).2 = none) :
    (s.write p).1.out = s.out ++ p := by
  unfold Sink.write at h ⊢
  rcases hs : s.script with _ | ⟨b, rest⟩
  · simp
  · cases b
    · simp
    · simp [hs] at h

/-- C17: a successful `gcmWriter.Write(p)` appends to the sink exactly the 4-byte
little-endian length of the sealed chunk followed by the sealed bytes, returns `len(p)` and
advances the `uint64` counter by one, the sealed length being at most 2^32-1; such a write
does succeed when the sink accepts it; a chunk whose sealed length exceeds 2^32-1 is
rejected with "chunk too large", `n = 0`, the sink and the counter untouched. -/
theorem Write_frame_format (gcm : AEAD) (s : GcmWriter Sink) (p : Bytes) :
    ((s.Write gcm Sink.write p).2.2 = none →
        (gcm.Seal (nextNonce s.base s.counter) p).length ≤ 4294967295 ∧
        (s.Write gcm Sink.write p).1.w.out =
          s.w.out ++ (putUint32 (gcm.Seal (nextNonce s.base s.counter) p).length ++
            gcm.Seal (nextNonce s.base s.counter) p) ∧
        (s.Write gcm Sink.write p).2.1 = p.length ∧
        (s.Write gcm Sink.write p).1.counter = (s.counter + 1) % 18446744073709551616) ∧
    ((gcm.Seal (nextNonce s.base s.counter) p).length ≤ 4294967295 → s.w.script = [] →
        (s.Write gcm Sink.write p).2.2 = none) ∧
    (4294967295 < (gcm.Seal (nextNonce s.base s.counter) p).length →
        (s.Write gcm Sink.write p).2 = (0, some Err.chunkTooLarge) ∧
        (s.Write gcm Sink.write p).1.w = s.w ∧
        (s.Write gcm Sink.write p).1.counter = s.counter) := by
  refine ⟨?_, ?_, ?_⟩
  · intro h
    unfold GcmWriter.Write at h ⊢
    simp only at h ⊢
    by_cases hbig : (gcm.Seal (nextNonce s.base s.counter) p).length > 4294967295
    · simp [hbig] at h
    · rw [if_neg hbig] at h ⊢
      rcases h1 : s.w.write (putUint32 (gcm.Seal (nextNonce s.base s.counter) p).length)
        with ⟨w1, _ | e1⟩
      · dsimp only at h ⊢
        rcases h2 : w1.write (gcm.Seal (nextNonce s.base s.counter) p) with ⟨w2, _ | e2⟩
        · have ho1 := Sink_write_ok s.w _ (by rw [h1])
          have ho2 := Sink_write_ok w1 _ (by rw [h2])
          rw [h1] at ho1
          rw [h2] at ho2
          simp only at ho1 ho2
          refine ⟨by omega, ?_, rfl, rfl⟩
          show w2.out = _
          rw [ho2, ho1, List.append_assoc]
        · simp [h1, h2] at h
      · simp [h1] at h
  · intro hfit hs
    rw [Write_ok gcm s p hs hfit]
  · intro hbig
    rw [Write_tooLarge gcm s p hbig]
    exact ⟨rfl, rfl, rfl⟩

/-- Witness of `Write_frame_format`: a 3-byte chunk; the sealed chunk has 15 bytes. -/
theorem Write_frame_format_witness :
    ((NewGCMWriter (⟨[], []⟩ : Sink) [9, 9, 9, 9, 1, 2, 3, 4, 5, 6, 7, 8]).Write tagAEAD
        Sink.write [1, 2, 3]).1.w.out =
      [] ++ (putUint32 (tagAEAD.Seal (nextNonce (base12 [9, 9, 9, 9, 1, 2, 3, 4, 5, 6, 7, 8]) 0)
          [1, 2, 3]).length ++
        tagAEAD.Seal (nextNonce (base12 [9, 9, 9, 9, 1, 2, 3, 4, 5, 6, 7, 8]) 0) [1, 2, 3]) :=
  ((Write_frame_format tagAEAD
      (NewGCMWriter (⟨[], []⟩ : Sink) [9, 9, 9, 9, 1, 2, 3, 4, 5, 6, 7, 8]) [1, 2, 3]).1
    (by decide)).2.1

/-! ## C18: which bytes of the base reach a nonce -/

theorem Write_same_nonce (gcm : AEAD) (s1 s2 : GcmWriter Sink) (p : Bytes)
    (hw : s1.w = s2.w) (hc : s1.counter = s2.counter) (hs : s1.sealed = s2.sealed)
    (hb : s1.base.take 4 = s2.base.take 4) :
    (s1.Write gcm Sink.write p).2 = (s2.Write gcm Sink.write p).2 ∧
      (s1.Write gcm Sink.write p).1.w = (s2.Write gcm Sink.write p).1.w ∧
      (s1.Write gcm Sink.write p).1.counter = (s2.Write gcm Sink.write p).1.counter ∧
      (s1.Write gcm Sink.write p).1.sealed = (s2.Write gcm Sink.write p).1.sealed ∧
      (s1.Write gcm Sink.write p).1.base = s1.base ∧
      (s2.Write gcm Sink.write p).1.base = s2.base := by
  obtain ⟨w1, b1, c1, l1⟩ := s1
  obtain ⟨w2, b2, c2, l2⟩ := s2
  simp only at hw hc hs hb
  subst hw hc hs
  have hn : nextNonce b1 c1 = nextNonce b2 c1 := by simp [nextNonce, hb]
  unfold GcmWriter.Write
  simp only [hn]
  split
  · exact ⟨rfl, rfl, rfl, rfl, rfl, rfl⟩
  · split
    · exact ⟨rfl, rfl, rfl, rfl, rfl, rfl⟩
    · split <;> exact ⟨rfl, rfl, rfl, rfl, rfl, rfl⟩

theorem writeEach_same_nonce (gcm : AEAD) :
    ∀ (chunks : List Bytes) (s1 s2 : GcmWriter Sink), s1.w = s2.w → s1.counter = s2.counter →
      s1.sealed = s2.sealed → s1.base.take 4 = s2.base.take 4 →
      (writeEach gcm s1 chunks).2 = (writeEach gcm s2 chunks).2 ∧
        (writeEach gcm s1 chunks).1.w = (writeEach gcm s2 chunks).1.w := by
  intro chunks
  induction chunks with
  | nil => intro s1 s2 hw _ _ _; simp [writeEach, hw]
  | cons p ps ih =>
    intro s1 s2 hw hc hs hb
    obtain ⟨h1, h2, h3, h4, h5, h6⟩ := Write_same_nonce gcm s1 s2 p hw hc hs hb
    obtain ⟨i1, i2⟩ := ih (s1.Write gcm Sink.write p).1 (s2.Write gcm Sink.write p).1 h2 h3 h4
      (by rw [h5, h6]; exact hb)
    simp only [writeEach]
    exact ⟨by rw [h1, i1], i2⟩

/-- C18: the nonce of chunk `k` is bytes 0..3 of the base followed by the 8-byte
little-endian counter, so for every AEAD, sink and chunk sequence two 12-byte bases that
agree on their first 4 bytes yield the same nonces, the same per-call results and the same
bytes in the sink. -/
theorem nonce_base_tail_ignored (gcm : AEAD) (w : Sink) (b1 b2 : Bytes) (chunks : List Bytes)
    (h1 : b1.length = 12) (h2 : b2.length = 12) (h : b1.take 4 = b2.take 4) :
    (∀ k, nextNonce (base12 b1) k = b1.take 4 ++ putUint64 k) ∧
    (∀ k, nextNonce (base12 b1) k = nextNonce (base12 b2) k) ∧
    (writeEach gcm (NewGCMWriter w b1) chunks).2 =
      (writeEach gcm (NewGCMWriter w b2) chunks).2 ∧
    (writeEach gcm (NewGCMWriter w b1) chunks).1.w =
      (writeEach gcm (NewGCMWriter w b2) chunks).1.w := by
  have e1 : base12 b1 = b1 := by
    simp [base12, h1, List.take_of_length_le (le_of_eq h1)]
  have e2 : base12 b2 = b2 := by
    simp [base12, h2, List.take_of_length_le (le_of_eq h2)]
  refine ⟨fun k => by rw [e1]; rfl, fun k => by rw [e1, e2]; simp [nextNonce, h], ?_⟩
  exact writeEach_same_nonce gcm chunks _ _ rfl rfl rfl
    (by simp only [NewGCMWriter]; rw [e1, e2]; exact h)

/-- Witness of `nonce_base_tail_ignored`: two bases that differ in bytes 4..11. -/
theorem nonce_base_tail_ignored_witness :
    (writeEach tagAEAD (NewGCMWriter (⟨[], []⟩ : Sink) [9, 9, 9, 9, 1, 2, 3, 4, 5, 6, 7, 8])
        [[1, 2], [3]]).1.w =
      (writeEach tagAEAD (NewGCMWriter (⟨[], []⟩ : Sink) [9, 9, 9, 9, 0, 0, 0, 0, 0, 0, 0, 0])
        [[1, 2], [3]]).1.w :=
  (nonce_base_tail_ignored tagAEAD ⟨[], []⟩ [9, 9, 9, 9, 1, 2, 3, 4, 5, 6, 7, 8]
    [9, 9, 9, 9, 0, 0, 0, 0, 0, 0, 0, 0] [[1, 2], [3]] rfl rfl rfl).2.2.2

/-! ## C11: bootstrap of the controller record -/

theorem Meta_fold_eq (seed : Ctrl) :
    stageNames.foldl
        (fun (c : Ctrl) k =>
          match mapGet seed k with
          | some v => mapSet c k v
          | none => mapSet c k (StageVal.obj [])) [] =
      stageNames.map (fun k => (k, (mapGet seed k).getD (StageVal.obj []))) := by
  have hstep : (fun (c : Ctrl) k =>
        match mapGet seed k with
        | some v => mapSet c k v
        | none => mapSet c k (StageVal.obj [])) =
      fun (c : Ctrl) k => mapSet c k ((mapGet seed k).getD (StageVal.obj [])) := by
    funext c k
    cases mapGet seed k <;> rfl
  rw [hstep]
  generalize (fun k => (mapGet seed k).getD (StageVal.obj [])) = g
  rfl

/-- C11: when the controller location does not exist and the record can be written,
`Meta.Apply` succeeds, the context's record has exactly the six stage names as keys, each
with the seed's value for that name if the seed has one and an empty map otherwise, and the
controller file holds that record; when the write fails, `Meta.Apply` fails. When the
controller file holds a JSON object, the context's record is exactly that object, whatever
the seed. -/
theorem Meta_Apply_bootstrap (ctx : Context Pipe) :
    (ctx.data.world.json = JsonFile.absent → ctx.data.world.readOnly = false →
      (Meta.Apply ctx).2 = none ∧
      (Meta.Apply ctx).1.data.Controller =
        some (stageNames.map
          (fun k => (k, (mapGet (ctx.data.Seed.getD []) k).getD (StageVal.obj [])))) ∧
      (Meta.Apply ctx).1.data.world.json =
        JsonFile.doc (stageNames.map
          (fun k => (k, (mapGet (ctx.data.Seed.getD []) k).getD (StageVal.obj []))))) ∧
    (ctx.data.world.json = JsonFile.absent → ctx.data.world.readOnly = true →
      (Meta.Apply ctx).2 = some Err.io) ∧
    (∀ c, ctx.data.world.json = JsonFile.doc c →
      Meta.Apply ctx = ({ ctx with data := { ctx.data with Controller := some c } }, none)) := by
  refine ⟨?_, ?_, ?_⟩
  · intro hj hro
    simp [Meta.Apply, LoadController, hj, SaveController, hro, Meta_fold_eq]
  · intro hj hro
    simp [Meta.Apply, LoadController, hj, SaveController, hro]
  · intro c hj
    simp [Meta.Apply, LoadController, hj]

/-- Witness of `Meta_Apply_bootstrap`: a fresh controller path, the caller seeding
`compress.enabled = true`. -/
theorem Meta_Apply_bootstrap_witness :
    (Meta.Apply (initialContext "backup" "p" true helloWorld)).2 = none ∧
    (Meta.Apply (initialContext "backup" "p" true helloWorld)).1.data.Controller =
      some (stageNames.map (fun k => (k,
        (mapGet ((initialContext "backup" "p" true helloWorld).data.Seed.getD []) k).getD
          (StageVal.obj [])))) ∧
    (Meta.Apply (initialContext "backup" "p" true helloWorld)).1.data.world.json =
      JsonFile.doc (stageNames.map (fun k => (k,
        (mapGet ((initialContext "backup" "p" true helloWorld).data.Seed.getD []) k).getD
          (StageVal.obj [])))) :=
  (Meta_Apply_bootstrap (initialContext "backup" "p" true helloWorld)).1 rfl rfl

/-! ## C12 and C13: the integrity finalizer -/

theorem integrityFinalizer_present (L : Libs) (c : Pipe) (hashed : Bytes) (m : Obj)
    (e : String) (hH : c.Hasher = some hashed)
    (hm : asObj (ctrlGet c.Controller "integrity") = some m)
    (hs : asStr (mapGet m "sha256") = some e) (hne : e ≠ "") :
    integrityFinalizer L c =
      if e ≠ L.hexEncode (L.sha256 hashed) then (c, some (Err.text "integrity sha256 mismatch"))
      else (c, none) := by
  simp [integrityFinalizer, hH, hm, hs, hne]

theorem integrityFinalizer_missing (L : Libs) (c : Pipe) (hashed : Bytes) (m : Obj)
    (hH : c.Hasher = some hashed)
    (hm : asObj (ctrlGet c.Controller "integrity") = some m)
    (hs : asStr (mapGet m "sha256") = none ∨ asStr (mapGet m "sha256") = some "") :
    integrityFinalizer L c =
      ({ c with
          Controller := c.Controller.map (fun ctrl => mapSet ctrl "integrity"
            (StageVal.obj (mapSet m "sha256" (Any.str (L.hexEncode (L.sha256 hashed)))))),
          world := (SaveController c.world (c.Controller.map (fun ctrl => mapSet ctrl "integrity"
            (StageVal.obj (mapSet m "sha256"
              (Any.str (L.hexEncode (L.sha256 hashed)))))))).1 },
        (SaveController c.world (c.Controller.map (fun ctrl => mapSet ctrl "integrity"
            (StageVal.obj (mapSet m "sha256"
              (Any.str (L.hexEncode (L.sha256 hashed)))))))).2) := by
  rcases hs with hs | hs <;> simp [integrityFinalizer, hH, hm, hs]

/-- C12 (amended): when the record holds under `integrity.sha256` the (non-empty) hex digest
of the bytes the hasher received, the finalizer succeeds and leaves the whole context
unchanged: every key of the record, and the outside world, so no `SaveController` call is
made. More generally, whenever a non-empty string is stored there, nothing is stored or
persisted. The digest is stored, and `SaveController` called once, when the key is
missing, holds a value that is not a string, or holds the empty string. -/
theorem integrityFinalizer_verify_no_rewrite (L : Libs) (c : Pipe) (hashed : Bytes) (m : Obj)
    (hH : c.Hasher = some hashed)
    (hm : asObj (ctrlGet c.Controller "integrity") = some m) :
    (asStr (mapGet m "sha256") = some (L.hexEncode (L.sha256 hashed)) →
      L.hexEncode (L.sha256 hashed) ≠ "" → integrityFinalizer L c = (c, none)) ∧
    (∀ e, asStr (mapGet m "sha256") = some e → e ≠ "" → (integrityFinalizer L c).1 = c) ∧
    (asStr (mapGet m "sha256") = none ∨ asStr (mapGet m "sha256") = some "" →
      (integrityFinalizer L c).1.Controller =
        c.Controller.map (fun ctrl => mapSet ctrl "integrity"
          (StageVal.obj (mapSet m "sha256" (Any.str (L.hexEncode (L.sha256 hashed)))))) ∧
      (integrityFinalizer L c).1.world.saves = c.world.saves + 1) := by
  refine ⟨?_, ?_, ?_⟩
  · intro hs hne
    rw [integrityFinalizer_present L c hashed m _ hH hm hs hne]
    simp
  · intro e hs hne
    rw [integrityFinalizer_present L c hashed m e hH hm hs hne]
    split <;> rfl
  · intro hs
    rw [integrityFinalizer_missing L c hashed m hH hm hs]
    refine ⟨rfl, ?_⟩
    simp only [SaveController]
    split <;> rfl

/-- Witness of `integrityFinalizer_verify_no_rewrite`: the stored digest `01` is the digest
of the hashed byte. -/
theorem integrityFinalizer_verify_no_rewrite_witness :
    integrityFinalizer toyLibs (finalizerInput (Any.str "01")) =
      (finalizerInput (Any.str "01"), none) :=
  (integrityFinalizer_verify_no_rewrite toyLibs (finalizerInput (Any.str "01")) [1]
    [("sha256", Any.str "01")] rfl (by decide)).1 (by decide) (by decide)

/-- C12 as stated fails: with the key `integrity.sha256` present and holding the empty
string, the finalizer stores the digest and calls `SaveController`. -/
theorem integrityFinalizer_overwrites_empty_digest :
    mapGet [("sha256", Any.str "")] "sha256" = some (Any.str "") ∧
    (integrityFinalizer toyLibs (finalizerInput (Any.str ""))).2 = none ∧
    (integrityFinalizer toyLibs (finalizerInput (Any.str ""))).1.Controller =
      some [("integrity", StageVal.obj [("sha256", Any.str "01")])] ∧
    (integrityFinalizer toyLibs (finalizerInput (Any.str ""))).1.world.saves = 1 ∧
    (integrityFinalizer toyLibs (finalizerInput (Any.str ""))).1.world.json =
      JsonFile.doc [("integrity", StageVal.obj [("sha256", Any.str "01")])] := by
  decide

theorem asObj_obj (m : Obj) : asObj (some (StageVal.obj m)) = some m := rfl

theorem asBool_bool (b : Bool) : asBool (some (Any.bool b)) = some b := rfl

theorem asStr_str (t : String) : asStr (some (Any.str t)) = some t := rfl

theorem lookup_map_set {α : Type} (k : String) (v : α) :
    ∀ (m : List (String × α)), (m.lookup k).isSome →
      (m.map (fun kv => if kv.1 == k then (k, v) else kv)).lookup k = some v := by
  intro m
  induction m with
  | nil => intro h; simp at h
  | cons kv t ih =>
    intro h
    obtain ⟨k', v'⟩ := kv
    by_cases hk : k' = k
    · subst hk
      show List.lookup k' ((if (k' == k') = true then (k', v) else (k', v')) ::
        t.map (fun kv => if kv.1 == k' then (k', v) else kv)) = some v
      rw [if_pos (by simp)]
      simp [List.lookup]
    · have hk' : ¬ k = k' := fun e => hk e.symm
      have hb : (k == k') = false := by simpa using hk'
      simp only [List.lookup, hb] at h
      show List.lookup k ((if (k' == k) = true then (k, v) else (k', v')) ::
        t.map (fun kv => if kv.1 == k then (k, v) else kv)) = some v
      rw [if_neg (by simpa using hk)]
      simp only [List.lookup, hb]
      exact ih h

theorem lookup_append_new {α : Type} (k : String) (v : α) :
    ∀ (m : List (String × α)), m.lookup k = none → (m ++ [(k, v)]).lookup k = some v := by
  intro m
  induction m with
  | nil => intro _; simp [List.lookup]
  | cons kv t ih =>
    intro h
    obtain ⟨k', v'⟩ := kv
    by_cases hb : (k == k') = true
    · simp [List.lookup, hb] at h
    · have hb' : (k == k') = false := by simpa using hb
      simp only [List.lookup, hb'] at h
      simp only [List.cons_append, List.lookup, hb']
      exact ih h

theorem mapGet_mapSet_self {α : Type} (m : List (String × α)) (k : String) (v : α) :
    mapGet (mapSet m k v) k = some v := by
  unfold mapGet mapSet
  by_cases h : (m.lookup k).isSome
  · rw [if_pos h]
    exact lookup_map_set k v m h
  · rw [if_neg h]
    exact lookup_append_new k v m (Option.not_isSome_iff_eq_none.mp h)

theorem lookup_map_other {α : Type} (k k2 : String) (v : α) (hne : k2 ≠ k) :
    ∀ (m : List (String × α)),
      (m.map (fun kv => if kv.1 == k then (k, v) else kv)).lookup k2 = m.lookup k2 := by
  intro m
  induction m with
  | nil => rfl
  | cons kv t ih =>
    obtain ⟨k', v'⟩ := kv
    by_cases hk : k' = k
    · subst hk
      have hb : (k2 == k') = false := by simpa using hne
      show List.lookup k2 ((if (k' == k') = true then (k', v) else (k', v')) ::
        t.map (fun kv => if kv.1 == k' then (k', v) else kv)) = List.lookup k2 ((k', v') :: t)
      rw [if_pos (by simp)]
      simp only [List.lookup, hb]
      exact ih
    · show List.lookup k2 ((if (k' == k) = true then (k, v) else (k', v')) ::
        t.map (fun kv => if kv.1 == k then (k, v) else kv)) = List.lookup k2 ((k', v') :: t)
      rw [if_neg (by simpa using hk)]
      simp only [List.lookup]
      rw [ih]

theorem lookup_append_other {α : Type} (k k2 : String) (v : α) (hne : k2 ≠ k) :
    ∀ (m : List (String × α)), (m ++ [(k, v)]).lookup k2 = m.lookup k2 := by
  intro m
  induction m with
  | nil =>
    have hb : (k2 == k) = false := by simpa using hne
    simp [List.lookup, hb]
  | cons kv t ih =>
    obtain ⟨k', v'⟩ := kv
    rw [List.cons_append]
    simp only [List.lookup]
    rw [ih]

theorem mapGet_mapSet_other {α : Type} (m : List (String × α)) (k k2 : String) (v : α)
    (hne : k2 ≠ k) : mapGet (mapSet m k v) k2 = mapGet m k2 := by
  unfold mapGet mapSet
  by_cases h : (m.lookup k).isSome
  · rw [if_pos h]
    exact lookup_map_other k k2 v hne m
  · rw [if_neg h]
    exact lookup_append_other k k2 v hne m

/-! ## C14: what `Copy.Apply` returns -/

/-- C19 (the code departs from the claim): the controller file `null` is accepted by
`LoadController`, `Meta.Apply` succeeds and leaves `ctx.Controller` a `nil` map, and the
next stage, `Compress.Apply`, panics on `ctx.Controller["compress"] = cval`. -/
theorem null_controller_panics :
    (LoadController nullWorld).2.2 = none ∧
    (Meta.Apply ( DiskIO.Apply (initialContext "backup" "p" false nullWorld)).1).2 = none ∧
    (Meta.Apply ( DiskIO.Apply (initialContext "backup" "p" false nullWorld)).1).1.data.Controller
      = none ∧
    (Compress.Apply toyLibs
      (Meta.Apply ( DiskIO.Apply (initialContext "backup" "p" false nullWorld)).1).1).2 =
      some (Err.panic "assignment to entry in nil map") ∧
    (cmdDD toyLibs "backup" "p" false nullWorld).log =
      [Event.stage 0, Event.stage 1, Event.stage 2] := by
  decide

/-! ## C15: a failing `SaveController` inside `Compress.Apply` and `Crypto.Apply` -/

/-- C15 (amended): when the controller file cannot be written, every `SaveController` call
fails; yet `Compress.Apply` (backup mode) and `Crypto.Apply`, finding their `enabled` key
absent, store the seeded value in the record in memory, call `SaveController`, discard its
error and return success, the controller file being left as it was. -/
theorem persist_failure_is_discarded (L : Libs) (ctx : Context Pipe) (m : Ctrl) (cval : Obj)
    (hC : ctx.data.Controller = some m) (hro : ctx.data.world.readOnly = true) :
    (∀ x, (SaveController ctx.data.world x).2 = some Err.io) ∧
    (asObj (mapGet m "compress") = some cval → mapGet cval "enabled" = none →
      ctx.data.Mode = "backup" →
      (Compress.Apply L ctx).2 = none ∧
      (Compress.Apply L ctx).1.data.world.json = ctx.data.world.json ∧
      (Compress.Apply L ctx).1.data.world.saves = ctx.data.world.saves + 1 ∧
      (asObj (ctrlGet (Compress.Apply L ctx).1.data.Controller "compress")).bind
          (fun o => mapGet o "enabled") =
        some (Any.bool ((asBool ((asObj (ctrlGet ctx.data.Seed "compress")).bind
          (fun o => mapGet o "enabled"))).getD false))) ∧
    (asObj (mapGet m "crypto") = some cval → mapGet cval "enabled" = none →
      (Crypto.Apply L ctx).2 = none ∧
      (Crypto.Apply L ctx).1.data.world.json = ctx.data.world.json ∧
      ctx.data.world.saves < (Crypto.Apply L ctx).1.data.world.saves ∧
      (asObj (ctrlGet (Crypto.Apply L ctx).1.data.Controller "crypto")).bind
          (fun o => mapGet o "enabled") = some (Any.bool true)) := by
  obtain ⟨⟨Mode, Ctl, Seed, R, W, H, FP, world⟩, fins⟩ := ctx
  simp only at hC hro ⊢
  subst hC
  refine ⟨fun x => by simp [SaveController, hro], ?_, ?_⟩
  · intro hcv hen hmode
    subst hmode
    have hso : ∀ d : Pipe, d.Controller = some m → stageObj d "compress" = some (d, cval) := by
      intro d hd
      simp [stageObj, ctrlGet, hd, hcv]
    have hso' := hso ⟨"backup", some m, Seed, R, W, H, FP, world⟩ rfl
    simp only [Compress.Apply, hso', hen, Option.isNone_none, if_true]
    generalize asBool ((asObj (ctrlGet Seed "compress")).bind (fun o => mapGet o "enabled"))
      = sv
    rcases sv with _ | v
    · cases W <;>
        simp [setDecision, SaveController, hro, mapGet_mapSet_self, asBool_bool, asObj_obj,
          ctrlGet]
    · cases v <;> cases W <;>
        simp [setDecision, SaveController, hro, mapGet_mapSet_self, asBool_bool, asObj_obj,
          ctrlGet]
  · intro hcv hen
    have hso : stageObj ⟨Mode, some m, Seed, R, W, H, FP, world⟩ "crypto" =
        some (⟨Mode, some m, Seed, R, W, H, FP, world⟩, cval) := by
      simp [stageObj, ctrlGet, hcv]
    have hne1 : ∀ (o : Obj) (v : Any), mapGet (mapSet o "enabled" v) "nonce_b" =
        mapGet o "nonce_b" := fun o v => mapGet_mapSet_other o "enabled" "nonce_b" v (by decide)
    have hne2 : ∀ (o : Obj) (v : Any), mapGet (mapSet o "nonce_b" v) "enabled" =
        mapGet o "enabled" := fun o v => mapGet_mapSet_other o "nonce_b" "enabled" v (by decide)
    simp only [Crypto.Apply, hso, hen, Option.isNone_none, if_true, setDecision,
      mapGet_mapSet_self, asBool_bool, Option.getD_some, hne1]
    generalize asStr (mapGet cval "nonce_b") = sn
    rcases sn with _ | nb
    · by_cases hmode : Mode = "backup" <;> cases W <;> cases R <;>
        simp [hmode, SaveController, hro, mapGet_mapSet_self, hne2, ctrlGet, asObj_obj] <;>
        omega
    · by_cases hnb : nb = "" <;> by_cases hmode : Mode = "backup" <;> cases W <;> cases R <;>
        simp [hnb, hmode, SaveController, hro, mapGet_mapSet_self, hne2, ctrlGet, asObj_obj] <;>
        omega

/-- Witness of `persist_failure_is_discarded`: `Compress.Apply` after the controller was
loaded from a file that cannot be written. -/
theorem persist_failure_is_discarded_witness :
    (Compress.Apply toyLibs readOnlyLoaded).2 = none ∧
    (Compress.Apply toyLibs readOnlyLoaded).1.data.world.json = readOnlyLoaded.data.world.json :=
  ⟨((persist_failure_is_discarded toyLibs readOnlyLoaded
      (stageNames.map (fun k => (k, StageVal.obj []))) [] (by decide) (by decide)).2.1
      (by decide) (by decide) (by decide)).1,
   ((persist_failure_is_discarded toyLibs readOnlyLoaded
      (stageNames.map (fun k => (k, StageVal.obj []))) [] (by decide) (by decide)).2.1
      (by decide) (by decide) (by decide)).2.1⟩

/-- C15 as stated fails: with a controller file that cannot be written, `Compress.Apply`
seeds `enabled`, its `SaveController` call fails, and it returns success with the sink
wrapped; `Crypto.Apply` then seeds `enabled` and the nonce base, both `SaveController` calls
fail, and it returns success with the sink wrapped again; the file still holds the old
record. -/
theorem stages_continue_after_failed_persist :
    (SaveController readOnlyLoaded.data.world readOnlyLoaded.data.Controller).2 = some Err.io ∧
    (Compress.Apply toyLibs readOnlyLoaded).2 = none ∧
    (Compress.Apply toyLibs readOnlyLoaded).1.data.world.saves = 1 ∧
    (Compress.Apply toyLibs readOnlyLoaded).1.data.W.map (fun w => w.kinds.length) = some 1 ∧
    (Crypto.Apply toyLibs (Compress.Apply toyLibs readOnlyLoaded).1).2 = none ∧
    (Crypto.Apply toyLibs (Compress.Apply toyLibs readOnlyLoaded).1).1.data.world.saves = 3 ∧
    (Crypto.Apply toyLibs (Compress.Apply toyLibs readOnlyLoaded).1).1.data.W.map
      (fun w => w.kinds.length) = some 2 ∧
    (Crypto.Apply toyLibs (Compress.Apply toyLibs readOnlyLoaded).1).1.data.world.json =
      JsonFile.doc (stageNames.map (fun k => (k, StageVal.obj []))) := by
  decide

/-! ## C16: the controller key of the nonce base -/

theorem base12_length (x : Bytes) : (base12 x).length = 12 := by
  simp only [base12, List.length_append, List.length_take, List.length_replicate]
  omega

theorem Crypto_Apply_stored_nonce (L : Libs) (ctx : Context Pipe) (m : Ctrl) (cval : Obj)
    (nb : String) (hC : ctx.data.Controller = some m)
    (hcv : asObj (mapGet m "crypto") = some cval)
    (hen : mapGet cval "enabled" = some (Any.bool true))
    (hnb : asStr (mapGet cval "nonce_b") = some nb) (hne : nb ≠ "") :
    (Crypto.Apply L ctx).2 = none ∧
    (Crypto.Apply L ctx).1.data.Controller = ctx.data.Controller ∧
    (Crypto.Apply L ctx).1.data.world = ctx.data.world ∧
    (∀ w, ctx.data.Mode = "backup" → ctx.data.W = some w →
      (Crypto.Apply L ctx).1.data.W =
        some ⟨WKind.gcm (L.newGCM (L.sha256 (stringBytes ctx.data.FilePass))) :: w.kinds,
          NewGCMWriter w.st (L.b64Decode nb)⟩ ∧
      (Crypto.Apply L ctx).1.data.R = ctx.data.R) ∧
    (∀ r, ctx.data.Mode ≠ "backup" → ctx.data.R = some r →
      (Crypto.Apply L ctx).1.data.R =
        some (gcmReaderOver (L.newGCM (L.sha256 (stringBytes ctx.data.FilePass)))
          (L.b64Decode nb) r) ∧
      (Crypto.Apply L ctx).1.data.W = ctx.data.W) := by
  obtain ⟨⟨Mode, Ctl, Seed, R, W, H, FP, world⟩, fins⟩ := ctx
  simp only at hC ⊢
  subst hC
  by_cases hmode : Mode = "backup" <;> cases W <;> cases R <;>
    simp [Crypto.Apply, stageObj, ctrlGet, hcv, hen, hnb, hne, hmode, asBool_bool]

theorem Crypto_Apply_fresh_nonce (L : Libs) (ctx : Context Pipe) (m : Ctrl) (cval : Obj)
    (hC : ctx.data.Controller = some m)
    (hcv : asObj (mapGet m "crypto") = some cval)
    (hen : mapGet cval "enabled" = some (Any.bool true))
    (hno : asStr (mapGet cval "nonce_b") = none) :
    (Crypto.Apply L ctx).2 = none ∧
    (Crypto.Apply L ctx).1.data.Controller =
      some (mapSet m "crypto" (StageVal.obj
        (mapSet cval "nonce_b" (Any.str (L.b64Encode (base12 ctx.data.world.rand)))))) ∧
    (∀ w, ctx.data.Mode = "backup" → ctx.data.W = some w →
      (Crypto.Apply L ctx).1.data.W =
        some ⟨WKind.gcm (L.newGCM (L.sha256 (stringBytes ctx.data.FilePass))) :: w.kinds,
          NewGCMWriter w.st (L.b64Decode (L.b64Encode (base12 ctx.data.world.rand)))⟩) := by
  obtain ⟨⟨Mode, Ctl, Seed, R, W, H, FP, world⟩, fins⟩ := ctx
  simp only at hC ⊢
  subst hC
  by_cases hmode : Mode = "backup" <;> cases W <;> cases R <;>
    simp [Crypto.Apply, stageObj, ctrlGet, hcv, hen, hno, hmode, asBool_bool, setDecision]

/-- C16 (amended): after `Crypto.Apply` runs with encryption enabled on a record whose
crypto map has no nonce base, the crypto map holds under the key `nonce_b` (the key
`nonce_base` is not written) the base64 text of a 12-byte value; on a later run with that
record `Crypto.Apply` reads the key `nonce_b` back, changes neither record nor controller
file, and seeds the encoder (backup) or decoder (restore) with the same 12 bytes. Base64
decoding is assumed to give back the 12 encoded bytes, and the encoded text to be
non-empty. -/
theorem Crypto_Apply_nonce_key (L : Libs) (ctx : Context Pipe) (m : Ctrl) (cval : Obj)
    (hC : ctx.data.Controller = some m)
    (hcv : asObj (mapGet m "crypto") = some cval)
    (hen : mapGet cval "enabled" = some (Any.bool true))
    (hno : asStr (mapGet cval "nonce_b") = none)
    (hb64 : L.b64Decode (L.b64Encode (base12 ctx.data.world.rand)) =
      base12 ctx.data.world.rand)
    (hne : L.b64Encode (base12 ctx.data.world.rand) ≠ "") :
    (Crypto.Apply L ctx).2 = none ∧
    asObj (ctrlGet (Crypto.Apply L ctx).1.data.Controller "crypto") =
      some (mapSet cval "nonce_b" (Any.str (L.b64Encode (base12 ctx.data.world.rand)))) ∧
    mapGet (mapSet cval "nonce_b" (Any.str (L.b64Encode (base12 ctx.data.world.rand))))
      "nonce_b" = some (Any.str (L.b64Encode (base12 ctx.data.world.rand))) ∧
    mapGet (mapSet cval "nonce_b" (Any.str (L.b64Encode (base12 ctx.data.world.rand))))
      "nonce_base" = mapGet cval "nonce_base" ∧
    (base12 ctx.data.world.rand).length = 12 ∧
    (∀ ctx2 : Context Pipe, ctx2.data.Controller = (Crypto.Apply L ctx).1.data.Controller →
      (Crypto.Apply L ctx2).2 = none ∧
      (Crypto.Apply L ctx2).1.data.Controller = ctx2.data.Controller ∧
      (Crypto.Apply L ctx2).1.data.world = ctx2.data.world ∧
      (∀ w, ctx2.data.Mode = "backup" → ctx2.data.W = some w →
        (Crypto.Apply L ctx2).1.data.W =
          some ⟨WKind.gcm (L.newGCM (L.sha256 (stringBytes ctx2.data.FilePass))) :: w.kinds,
            NewGCMWriter w.st (base12 ctx.data.world.rand)⟩) ∧
      (∀ r, ctx2.data.Mode ≠ "backup" → ctx2.data.R = some r →
        (Crypto.Apply L ctx2).1.data.R =
          some (gcmReaderOver (L.newGCM (L.sha256 (stringBytes ctx2.data.FilePass)))
            (base12 ctx.data.world.rand) r))) := by
  obtain ⟨h1, h2, _⟩ := Crypto_Apply_fresh_nonce L ctx m cval hC hcv hen hno
  refine ⟨h1, ?_, mapGet_mapSet_self _ _ _,
    mapGet_mapSet_other _ _ _ _ (by decide), base12_length _, ?_⟩
  · rw [h2]
    simp only [ctrlGet, mapGet_mapSet_self, asObj_obj]
  · intro ctx2 hC2
    rw [h2] at hC2
    obtain ⟨g1, g2, g3, g4, g5⟩ := Crypto_Apply_stored_nonce L ctx2 _
      (mapSet cval "nonce_b" (Any.str (L.b64Encode (base12 ctx.data.world.rand))))
      (L.b64Encode (base12 ctx.data.world.rand)) hC2
      (by rw [mapGet_mapSet_self, asObj_obj])
      (by rw [mapGet_mapSet_other _ _ _ _ (by decide), hen])
      (by rw [mapGet_mapSet_self, asStr_str]) hne
    rw [hb64] at g4 g5
    exact ⟨g1, g2, g3, fun w hm hw => (g4 w hm hw).1, fun r hm hr => (g5 r hm hr).1⟩

/-- Witness of `Crypto_Apply_nonce_key`: a record with `crypto.enabled = true` and no nonce
base; the stand-in base64 prints one character per byte. -/
theorem Crypto_Apply_nonce_key_witness :
    (Crypto.Apply toyLibs nonceInput).2 = none ∧
    asObj (ctrlGet (Crypto.Apply toyLibs nonceInput).1.data.Controller "crypto") =
      some (mapSet [("enabled", Any.bool true)] "nonce_b"
        (Any.str (toyLibs.b64Encode (base12 nonceInput.data.world.rand)))) :=
  ⟨(Crypto_Apply_nonce_key toyLibs nonceInput
      [("crypto", StageVal.obj [("enabled", Any.bool true)])] [("enabled", Any.bool true)]
      (by decide) (by decide) (by decide) (by decide) (by decide) (by decide)).1,
   (Crypto_Apply_nonce_key toyLibs nonceInput
      [("crypto", StageVal.obj [("enabled", Any.bool true)])] [("enabled", Any.bool true)]
      (by decide) (by decide) (by decide) (by decide) (by decide) (by decide)).2.1⟩

/-- C16 as stated fails: after a backup run on a fresh controller the crypto map has no key
`nonce_base`; the nonce base is stored under `nonce_b`. -/
theorem crypto_map_has_no_nonce_base_key :
    ((asObj (ctrlGet (cmdDD toyLibs "backup" "p" false helloWorld).ctx.data.Controller
      "crypto")).bind (fun o => mapGet o "nonce_base")) = none ∧
    ((asObj (ctrlGet (cmdDD toyLibs "backup" "p" false helloWorld).ctx.data.Controller
      "crypto")).bind (fun o => mapGet o "nonce_b")) =
      some (Any.str (toyLibs.b64Encode [9, 9, 9, 9, 1, 2, 3, 4, 5, 6, 7, 8])) := by
  decide

/-! ## A backup and a restore run, stage by stage, for every library behaviour -/

theorem frames_length_ge (gcm : AEAD) (base : Bytes) :
    ∀ (chunks : List Bytes) (c : Nat), chunks.length ≤ (frames gcm base c chunks).length := by
  intro chunks
  induction chunks with
  | nil => intro c; simp [frames]
  | cons p ps ih =>
    intro c
    have := ih ((c + 1) % 18446744073709551616)
    simp only [frames, frame, List.length_append, List.length_cons, putUint32_length]
    omega

theorem readToEnd_frames (gcm : AEAD) (base : Bytes) :
    ∀ (chunks : List Bytes) (c fuel : Nat), chunks.length < fuel →
      framesFit gcm base c chunks → framesOpen gcm base c chunks →
      GcmReader.readToEnd gcm fuel
          { r := frames gcm base c chunks, base := base, counter := c, buf := [] } =
        (chunks.flatten, Err.eof) := by
  intro chunks
  induction chunks with
  | nil =>
    intro c fuel hf _ _
    obtain ⟨k, rfl⟩ : ∃ k, fuel = k + 1 := ⟨fuel - 1, by simp at hf; omega⟩
    simp [GcmReader.readToEnd, frames, GcmReader.Read, readFull]
  | cons p ps ih =>
    intro c fuel hf hfit hopen
    obtain ⟨k, rfl⟩ : ∃ k, fuel = k + 1 := ⟨fuel - 1, by omega⟩
    obtain ⟨hp, hps⟩ := hfit
    obtain ⟨ho, hos⟩ := hopen
    have hf' : ps.length < k := by simp only [List.length_cons] at hf; omega
    have hr := Read_frame gcm base c (gcm.Seal (nextNonce base c) p)
      (frames gcm base ((c + 1) % 18446744073709551616) ps) p 0 hp ho
    rw [GcmReader.readToEnd, frames, hr]
    simp only [List.drop_zero]
    rw [ih _ k hf' hps hos]
    simp

theorem gcmReaderOver_frames (gcm : AEAD) (nonce : Bytes) (chunks : List Bytes)
    (hfit : framesFit gcm (base12 nonce) 0 chunks)
    (hopen : framesOpen gcm (base12 nonce) 0 chunks) :
    gcmReaderOver gcm nonce
        { bytes := frames gcm (base12 nonce) 0 chunks, err := Err.eof, tapped := [] } =
      { bytes := chunks.flatten, err := Err.eof, tapped := [] } := by
  have h := readToEnd_frames gcm (base12 nonce) chunks 0
    ((frames gcm (base12 nonce) 0 chunks).length + 1)
    (Nat.lt_succ_of_le (frames_length_ge gcm (base12 nonce) chunks 0)) hfit hopen
  simp only [gcmReaderOver, NewGCMReader, h]
  simp

theorem writeChunks_file (h : Bytes) :
    ∀ (chunks : List Bytes) (o : Bytes),
      WState.writeChunks [] ({ out := o, script := [] } : Sink) h chunks =
        (({ out := o ++ chunks.flatten, script := [] } : Sink), h, none) := by
  intro chunks
  induction chunks with
  | nil => intro o; simp [WState.writeChunks]
  | cons p ps ih =>
    intro o
    simp [WState.writeChunks, WState.write, Sink.write, ih]

theorem Copy_Apply_frame (L : Libs) (ctx : Context Pipe) :
    (Copy.Apply L ctx).1.data.Controller = ctx.data.Controller ∧
      (Copy.Apply L ctx).1.data.world = ctx.data.world ∧
      (Copy.Apply L ctx).1.Finalizers = ctx.Finalizers := by
  obtain ⟨⟨Mode, Ctl, Seed, R, W, H, FP, world⟩, fins⟩ := ctx
  cases R <;> cases W <;> simp [Copy.Apply]

theorem backup_stages_before_copy (L : Libs) (pass : String) (data rnd : Bytes) (s : Nat) :
    StagesOK
      [⟨"diskio", DiskIO.Apply⟩, ⟨"meta", Meta.Apply⟩, ⟨"compress", Compress.Apply L⟩,
        ⟨"crypto", Crypto.Apply L⟩, ⟨"integrity", Integrity.Apply L⟩]
      (initialContext "backup" pass false
        { json := JsonFile.absent, readOnly := false, saves := s, input := some data,
          outScript := [], rand := rnd })
      (backupBeforeCopy L pass data rnd s) := by
  have h1 : DiskIO.Apply (initialContext "backup" pass false
        { json := JsonFile.absent, readOnly := false, saves := s, input := some data,
          outScript := [], rand := rnd }) =
      (runCtx "backup" pass false data rnd none
        (some { bytes := data, err := Err.eof, tapped := [] })
        (some ⟨[], ({ out := [], script := [] } : Sink)⟩) none JsonFile.absent s [], none) := rfl
  have h2 : Meta.Apply (runCtx "backup" pass false data rnd none
        (some { bytes := data, err := Err.eof, tapped := [] })
        (some ⟨[], ({ out := [], script := [] } : Sink)⟩) none JsonFile.absent s []) =
      (runCtx "backup" pass false data rnd (some (freshRecord false))
        (some { bytes := data, err := Err.eof, tapped := [] })
        (some ⟨[], ({ out := [], script := [] } : Sink)⟩) none
        (JsonFile.doc (freshRecord false)) (s + 1) [], none) := rfl
  have h3 : Compress.Apply L (runCtx "backup" pass false data rnd (some (freshRecord false))
        (some { bytes := data, err := Err.eof, tapped := [] })
        (some ⟨[], ({ out := [], script := [] } : Sink)⟩) none
        (JsonFile.doc (freshRecord false)) (s + 1) []) =
      (runCtx "backup" pass false data rnd (some (freshRecord false))
        (some { bytes := data, err := Err.eof, tapped := [] })
        (some ⟨[], ({ out := [], script := [] } : Sink)⟩) none
        (JsonFile.doc (freshRecord false)) (s + 1) [], none) := rfl
  have h4 : Crypto.Apply L (runCtx "backup" pass false data rnd (some (freshRecord false))
        (some { bytes := data, err := Err.eof, tapped := [] })
        (some ⟨[], ({ out := [], script := [] } : Sink)⟩) none
        (JsonFile.doc (freshRecord false)) (s + 1) []) =
      (runCtx "backup" pass false data rnd
        (some (cryptoRecord false (L.b64Encode (base12 rnd))))
        (some { bytes := data, err := Err.eof, tapped := [] })
        (some ⟨[WKind.gcm (L.newGCM (L.sha256 (stringBytes pass)))],
          (NewGCMWriter ({ out := [], script := [] } : Sink)
            (L.b64Decode (L.b64Encode (base12 rnd))) : GcmWriter Sink)⟩)
        none (JsonFile.doc (cryptoRecord false (L.b64Encode (base12 rnd)))) (s + 1 + 1 + 1) [],
        none) := rfl
  have h5 : Integrity.Apply L (runCtx "backup" pass false data rnd
        (some (cryptoRecord false (L.b64Encode (base12 rnd))))
        (some { bytes := data, err := Err.eof, tapped := [] })
        (some ⟨[WKind.gcm (L.newGCM (L.sha256 (stringBytes pass)))],
          (NewGCMWriter ({ out := [], script := [] } : Sink)
            (L.b64Decode (L.b64Encode (base12 rnd))) : GcmWriter Sink)⟩)
        none (JsonFile.doc (cryptoRecord false (L.b64Encode (base12 rnd)))) (s + 1 + 1 + 1) []) =
      (backupBeforeCopy L pass data rnd s, none) := rfl
  exact StagesOK.cons _ _ _ _ _ h1 (StagesOK.cons _ _ _ _ _ h2 (StagesOK.cons _ _ _ _ _ h3
    (StagesOK.cons _ _ _ _ _ h4 (StagesOK.cons _ _ _ _ _ h5 (StagesOK.nil _)))))

theorem StagesOK_append {σ : Type} (xs ys : List (Plugin σ)) (a b c : Context σ)
    (h1 : StagesOK xs a b) (h2 : StagesOK ys b c) : StagesOK (xs ++ ys) a c := by
  induction h1 with
  | nil _ => exact h2
  | cons p ps c0 c1 _ hp _ ih => exact StagesOK.cons p (ps ++ ys) c0 c1 c hp (ih h2)

theorem Run_ok {σ : Type} (ctx cn : Context σ) (order : List (Plugin σ)) (d : σ)
    (hs : StagesOK order ctx cn) (hf : FinalizersOK cn.Finalizers cn.data d) :
    Run ctx order =
      ⟨{ cn with data := d }, none,
        stageEvents 0 order.length ++ finalizerEvents 0 cn.Finalizers.length⟩ := by
  have h1 := runStages_ok ctx cn order hs
  have h2 := runFinalizers_ok cn.data d cn.Finalizers (stageEvents 0 order.length) hf
  simp only [Run, h1, h2]

theorem backup_run (L : Libs) (pass : String) (data rnd : Bytes) (s : Nat)
    (hfit : framesFit (L.newGCM (L.sha256 (stringBytes pass)))
      (base12 (L.b64Decode (L.b64Encode (base12 rnd)))) 0
      (chunksOf 8388608 data.length data)) :
    (cmdDD L "backup" pass false
        { json := JsonFile.absent, readOnly := false, saves := s, input := some data,
          outScript := [], rand := rnd }).err = none ∧
    (cmdDD L "backup" pass false
        { json := JsonFile.absent, readOnly := false, saves := s, input := some data,
          outScript := [], rand := rnd }).artifact =
      frames (L.newGCM (L.sha256 (stringBytes pass)))
        (base12 (L.b64Decode (L.b64Encode (base12 rnd)))) 0
        (chunksOf 8388608 data.length data) ∧
    (cmdDD L "backup" pass false
        { json := JsonFile.absent, readOnly := false, saves := s, input := some data,
          outScript := [], rand := rnd }).ctx.data.Hasher = some data ∧
    (cmdDD L "backup" pass false
        { json := JsonFile.absent, readOnly := false, saves := s, input := some data,
          outScript := [], rand := rnd }).ctx.data.world =
      { json := JsonFile.doc (finalRecord false (L.b64Encode (base12 rnd))
          (L.hexEncode (L.sha256 data))),
        readOnly := false, saves := s + 1 + 1 + 1 + 1, input := some data, outScript := [],
        rand := rnd } ∧
    (cmdDD L "backup" pass false
        { json := JsonFile.absent, readOnly := false, saves := s, input := some data,
          outScript := [], rand := rnd }).ctx.data.Controller =
      some (finalRecord false (L.b64Encode (base12 rnd)) (L.hexEncode (L.sha256 data))) := by
  obtain ⟨k1, k2, k3⟩ := Copy_Apply_crypto_chain L (backupBeforeCopy L pass data rnd s)
    (L.newGCM (L.sha256 (stringBytes pass))) (L.b64Decode (L.b64Encode (base12 rnd))) data
    rfl rfl rfl hfit
  obtain ⟨f1, f2, f3⟩ := Copy_Apply_frame L (backupBeforeCopy L pass data rnd s)
  have h6 : Copy.Apply L (backupBeforeCopy L pass data rnd s) =
      ((Copy.Apply L (backupBeforeCopy L pass data rnd s)).1, none) := Prod.ext rfl k1
  have hst : StagesOK (backupOrder L)
      (initialContext "backup" pass false
        { json := JsonFile.absent, readOnly := false, saves := s, input := some data,
          outScript := [], rand := rnd })
      (Copy.Apply L (backupBeforeCopy L pass data rnd s)).1 :=
    StagesOK_append _ [⟨"copy", Copy.Apply L⟩] _ _ _
      (backup_stages_before_copy L pass data rnd s)
      (StagesOK.cons _ _ _ _ _ h6 (StagesOK.nil _))
  have hm : asObj (ctrlGet (Copy.Apply L (backupBeforeCopy L pass data rnd s)).1.data.Controller
      "integrity") = some [] := by rw [f1]; rfl
  have hfin := integrityFinalizer_missing L
    (Copy.Apply L (backupBeforeCopy L pass data rnd s)).1.data data [] k2 hm (Or.inl rfl)
  rw [f1, f2] at hfin
  have hfin' : integrityFinalizer L (Copy.Apply L (backupBeforeCopy L pass data rnd s)).1.data =
      ({ (Copy.Apply L (backupBeforeCopy L pass data rnd s)).1.data with
          Controller := some (finalRecord false (L.b64Encode (base12 rnd))
            (L.hexEncode (L.sha256 data))),
          world :=
            { json := JsonFile.doc (finalRecord false (L.b64Encode (base12 rnd))
                (L.hexEncode (L.sha256 data))),
              readOnly := false, saves := s + 1 + 1 + 1 + 1, input := some data,
              outScript := [], rand := rnd } }, none) := by
    rw [hfin]; rfl
  have hrun := Run_ok _ _ _ _ hst
    (by rw [f3]; exact FinalizersOK.cons _ _ _ _ _ hfin' (FinalizersOK.nil _))
  have hcmd : cmdDD L "backup" pass false
      { json := JsonFile.absent, readOnly := false, saves := s, input := some data,
        outScript := [], rand := rnd } =
      Run (initialContext "backup" pass false
        { json := JsonFile.absent, readOnly := false, saves := s, input := some data,
          outScript := [], rand := rnd }) (backupOrder L) := rfl
  rw [hcmd, hrun]
  refine ⟨rfl, ?_, k2, rfl, rfl⟩
  exact k3

theorem restore_stages_before_copy (L : Libs) (pass : String) (b : Bool)
    (data rnd rnd2 : Bytes) (s : Nat)
    (hgcm : ∀ n p, (L.newGCM (L.sha256 (stringBytes pass))).Open n
      ((L.newGCM (L.sha256 (stringBytes pass))).Seal n p) = some p)
    (hfit : framesFit (L.newGCM (L.sha256 (stringBytes pass)))
      (base12 (L.b64Decode (L.b64Encode (base12 rnd)))) 0
      (chunksOf 8388608 data.length data))
    (hnb : L.b64Encode (base12 rnd) ≠ "") :
    StagesOK
      [⟨"diskio", DiskIO.Apply⟩, ⟨"meta", Meta.Apply⟩, ⟨"crypto", Crypto.Apply L⟩,
        ⟨"compress", Compress.Apply L⟩, ⟨"integrity", Integrity.Apply L⟩]
      (initialContext "restore" pass b
        { json := JsonFile.doc (finalRecord false (L.b64Encode (base12 rnd))
            (L.hexEncode (L.sha256 data))),
          readOnly := false, saves := s,
          input := some (sealedArtifact L pass data rnd),
          outScript := [], rand := rnd2 })
      (restoreBeforeCopy L pass b data rnd rnd2 s) := by
  have h1 : DiskIO.Apply (initialContext "restore" pass b
        { json := JsonFile.doc (finalRecord false (L.b64Encode (base12 rnd))
            (L.hexEncode (L.sha256 data))),
          readOnly := false, saves := s,
          input := some (sealedArtifact L pass data rnd),
          outScript := [], rand := rnd2 }) =
      (restoreCtx L pass b data rnd rnd2 s none
        (some { bytes := sealedArtifact L pass data rnd, err := Err.eof, tapped := [] }) none [],
        none) := rfl
  have h2 : Meta.Apply (restoreCtx L pass b data rnd rnd2 s none
        (some { bytes := sealedArtifact L pass data rnd, err := Err.eof, tapped := [] }) none []) =
      (restoreCtx L pass b data rnd rnd2 s
        (some (finalRecord false (L.b64Encode (base12 rnd)) (L.hexEncode (L.sha256 data))))
        (some { bytes := sealedArtifact L pass data rnd, err := Err.eof, tapped := [] }) none [],
        none) := rfl
  have hdec := gcmReaderOver_frames (L.newGCM (L.sha256 (stringBytes pass)))
    (L.b64Decode (L.b64Encode (base12 rnd))) (chunksOf 8388608 data.length data) hfit
    (framesOpen_of_correct _ hgcm _ _ _)
  rw [chunksOf_flatten 8388608 (by decide) data.length data (le_refl _)] at hdec
  replace hdec : gcmReaderOver (L.newGCM (L.sha256 (stringBytes pass)))
      (L.b64Decode (L.b64Encode (base12 rnd)))
      { bytes := sealedArtifact L pass data rnd, err := Err.eof, tapped := [] } =
      { bytes := data, err := Err.eof, tapped := [] } := hdec
  have h3 : Crypto.Apply L (restoreCtx L pass b data rnd rnd2 s
        (some (finalRecord false (L.b64Encode (base12 rnd)) (L.hexEncode (L.sha256 data))))
        (some { bytes := sealedArtifact L pass data rnd, err := Err.eof, tapped := [] }) none []) =
      (restoreCtx L pass b data rnd rnd2 s
        (some (finalRecord false (L.b64Encode (base12 rnd)) (L.hexEncode (L.sha256 data))))
        (some { bytes := data, err := Err.eof, tapped := [] }) none [], none) := by
    rw [← hdec]
    simp [Crypto.Apply, restoreCtx, stageObj, ctrlGet, finalRecord, mapGet, asObj, asBool,
      asStr, hnb, List.lookup]
  have h4 : Compress.Apply L (restoreCtx L pass b data rnd rnd2 s
        (some (finalRecord false (L.b64Encode (base12 rnd)) (L.hexEncode (L.sha256 data))))
        (some { bytes := data, err := Err.eof, tapped := [] }) none []) =
      (restoreCtx L pass b data rnd rnd2 s
        (some (finalRecord false (L.b64Encode (base12 rnd)) (L.hexEncode (L.sha256 data))))
        (some { bytes := data, err := Err.eof, tapped := [] }) none [], none) := rfl
  have h5 : Integrity.Apply L (restoreCtx L pass b data rnd rnd2 s
        (some (finalRecord false (L.b64Encode (base12 rnd)) (L.hexEncode (L.sha256 data))))
        (some { bytes := data, err := Err.eof, tapped := [] }) none []) =
      (restoreBeforeCopy L pass b data rnd rnd2 s, none) := rfl
  exact StagesOK.cons _ _ _ _ _ h1 (StagesOK.cons _ _ _ _ _ h2 (StagesOK.cons _ _ _ _ _ h3
    (StagesOK.cons _ _ _ _ _ h4 (StagesOK.cons _ _ _ _ _ h5 (StagesOK.nil _)))))

theorem integrityFinalizer_frame (L : Libs) (c : Pipe) :
    (integrityFinalizer L c).1.Hasher = c.Hasher ∧ (integrityFinalizer L c).1.W = c.W := by
  obtain ⟨Mode, Ctl, Seed, R, W, H, FP, world⟩ := c
  cases H with
  | none => exact ⟨rfl, rfl⟩
  | some hashed =>
    simp only [integrityFinalizer]
    split
    · split <;> exact ⟨rfl, rfl⟩
    · split <;> exact ⟨rfl, rfl⟩

theorem Copy_Apply_restore (L : Libs) (pass : String) (b : Bool) (data rnd rnd2 : Bytes)
    (s : Nat) :
    (Copy.Apply L (restoreBeforeCopy L pass b data rnd rnd2 s)).2 = none ∧
    (Copy.Apply L (restoreBeforeCopy L pass b data rnd rnd2 s)).1.data.Hasher = some data ∧
    (Copy.Apply L (restoreBeforeCopy L pass b data rnd rnd2 s)).1.data.W =
      some ⟨[], ({ out := data, script := [] } : Sink)⟩ := by
  have hflat := chunksOf_flatten 8388608 (by decide) data.length data (le_refl _)
  simp [Copy.Apply, restoreBeforeCopy, restoreCtx, writeChunks_file, hflat, WState.close]

theorem restore_run (L : Libs) (pass : String) (b : Bool) (data rnd rnd2 : Bytes) (s : Nat)
    (hgcm : ∀ n p, (L.newGCM (L.sha256 (stringBytes pass))).Open n
      ((L.newGCM (L.sha256 (stringBytes pass))).Seal n p) = some p)
    (hfit : framesFit (L.newGCM (L.sha256 (stringBytes pass)))
      (base12 (L.b64Decode (L.b64Encode (base12 rnd)))) 0
      (chunksOf 8388608 data.length data))
    (hnb : L.b64Encode (base12 rnd) ≠ "") :
    (cmdDD L "restore" pass b
        { json := JsonFile.doc (finalRecord false (L.b64Encode (base12 rnd))
            (L.hexEncode (L.sha256 data))),
          readOnly := false, saves := s, input := some (sealedArtifact L pass data rnd),
          outScript := [], rand := rnd2 }).err = none ∧
    (cmdDD L "restore" pass b
        { json := JsonFile.doc (finalRecord false (L.b64Encode (base12 rnd))
            (L.hexEncode (L.sha256 data))),
          readOnly := false, saves := s, input := some (sealedArtifact L pass data rnd),
          outScript := [], rand := rnd2 }).ctx.data.Hasher = some data ∧
    (cmdDD L "restore" pass b
        { json := JsonFile.doc (finalRecord false (L.b64Encode (base12 rnd))
            (L.hexEncode (L.sha256 data))),
          readOnly := false, saves := s, input := some (sealedArtifact L pass data rnd),
          outScript := [], rand := rnd2 }).artifact = data := by
  obtain ⟨k1, k2, k3⟩ := Copy_Apply_restore L pass b data rnd rnd2 s
  obtain ⟨f1, f2, f3⟩ := Copy_Apply_frame L (restoreBeforeCopy L pass b data rnd rnd2 s)
  have h6 : Copy.Apply L (restoreBeforeCopy L pass b data rnd rnd2 s) =
      ((Copy.Apply L (restoreBeforeCopy L pass b data rnd rnd2 s)).1, none) := Prod.ext rfl k1
  have hst : StagesOK (restoreOrder L)
      (initialContext "restore" pass b
        { json := JsonFile.doc (finalRecord false (L.b64Encode (base12 rnd))
            (L.hexEncode (L.sha256 data))),
          readOnly := false, saves := s, input := some (sealedArtifact L pass data rnd),
          outScript := [], rand := rnd2 })
      (Copy.Apply L (restoreBeforeCopy L pass b data rnd rnd2 s)).1 :=
    StagesOK_append _ [⟨"copy", Copy.Apply L⟩] _ _ _
      (restore_stages_before_copy L pass b data rnd rnd2 s hgcm hfit hnb)
      (StagesOK.cons _ _ _ _ _ h6 (StagesOK.nil _))
  have hm : asObj (ctrlGet
      (Copy.Apply L (restoreBeforeCopy L pass b data rnd rnd2 s)).1.data.Controller
      "integrity") = some [("sha256", Any.str (L.hexEncode (L.sha256 data)))] := by
    rw [f1]; rfl
  have hs : asStr (mapGet [("sha256", Any.str (L.hexEncode (L.sha256 data)))] "sha256") =
      some (L.hexEncode (L.sha256 data)) := rfl
  have hro : ∀ x, (SaveController
      (Copy.Apply L (restoreBeforeCopy L pass b data rnd rnd2 s)).1.data.world x).2 = none := by
    intro x
    rw [f2]
    rfl
  have hfin : (integrityFinalizer L
      (Copy.Apply L (restoreBeforeCopy L pass b data rnd rnd2 s)).1.data).2 = none := by
    by_cases hsum : L.hexEncode (L.sha256 data) = ""
    · rw [integrityFinalizer_missing L _ data _ k2 hm (Or.inr (by rw [hs, hsum]))]
      simp only
      apply hro
    · rw [integrityFinalizer_present L _ data _ _ k2 hm hs hsum]
      simp
  obtain ⟨g1, g2⟩ := integrityFinalizer_frame L
    (Copy.Apply L (restoreBeforeCopy L pass b data rnd rnd2 s)).1.data
  have hrun := Run_ok _ _ _ _ hst
    (by rw [f3]; exact FinalizersOK.cons _ _ _ _ _ (Prod.ext rfl hfin) (FinalizersOK.nil _))
  have hcmd : cmdDD L "restore" pass b
      { json := JsonFile.doc (finalRecord false (L.b64Encode (base12 rnd))
          (L.hexEncode (L.sha256 data))),
        readOnly := false, saves := s, input := some (sealedArtifact L pass data rnd),
        outScript := [], rand := rnd2 } =
      Run (initialContext "restore" pass b
        { json := JsonFile.doc (finalRecord false (L.b64Encode (base12 rnd))
            (L.hexEncode (L.sha256 data))),
          readOnly := false, saves := s, input := some (sealedArtifact L pass data rnd),
          outScript := [], rand := rnd2 }) (restoreOrder L) := rfl
  rw [hcmd, hrun]
  refine ⟨rfl, ?_, ?_⟩
  · show (integrityFinalizer L _).1.Hasher = some data
    rw [g1, k2]
  · show (match (integrityFinalizer L _).1.W with
      | none => []
      | some w => w.file.out) = data
    rw [g2, k3]
    rfl

/-! ## C20: the digests of a backup and of the restore of its artifact -/

/-- C20: with compression off and encryption on, for every input and passphrase (the AEAD of
the passphrase's key opening what it seals, every sealed 8 MiB read fitting the length
prefix, the stored nonce text non-empty), a backup on a fresh controller succeeds and
records the digest of the bytes its hasher received; a later restore of the produced
artifact with the record the backup left, whatever the caller's seed and the random bytes,
succeeds: its hasher receives the same bytes, so the digest its finalizer computes is the
recorded one, and it writes the original input. -/
theorem backup_restore_digests_agree (L : Libs) (pass : String) (b : Bool)
    (data rnd rnd2 : Bytes) (s s2 : Nat)
    (hgcm : ∀ n p, (L.newGCM (L.sha256 (stringBytes pass))).Open n
      ((L.newGCM (L.sha256 (stringBytes pass))).Seal n p) = some p)
    (hfit : framesFit (L.newGCM (L.sha256 (stringBytes pass)))
      (base12 (L.b64Decode (L.b64Encode (base12 rnd)))) 0
      (chunksOf 8388608 data.length data))
    (hnb : L.b64Encode (base12 rnd) ≠ "") :
    (cmdDD L "backup" pass false (freshWorld data rnd s)).err = none ∧
    asStr ((asObj (ctrlGet
        (cmdDD L "backup" pass false (freshWorld data rnd s)).ctx.data.Controller
        "integrity")).bind (fun o => mapGet o "sha256")) =
      some (L.hexEncode (L.sha256
        ((cmdDD L "backup" pass false (freshWorld data rnd s)).ctx.data.Hasher.getD []))) ∧
    (cmdDD L "restore" pass b
      (restoreWorld (cmdDD L "backup" pass false (freshWorld data rnd s)) rnd2 s2)).err = none ∧
    L.hexEncode (L.sha256 ((cmdDD L "restore" pass b
      (restoreWorld (cmdDD L "backup" pass false (freshWorld data rnd s)) rnd2 s2)
        ).ctx.data.Hasher.getD [])) =
      L.hexEncode (L.sha256
        ((cmdDD L "backup" pass false (freshWorld data rnd s)).ctx.data.Hasher.getD [])) ∧
    (cmdDD L "restore" pass b
      (restoreWorld (cmdDD L "backup" pass false (freshWorld data rnd s)) rnd2 s2)).artifact =
      data := by
  obtain ⟨b1, b2, b3, b4, b5⟩ := backup_run L pass data rnd s hfit
  obtain ⟨r1, r2, r3⟩ := restore_run L pass b data rnd rnd2 s2 hgcm hfit hnb
  have e : ({ json := JsonFile.absent, readOnly := false, saves := s, input := some data,
              outScript := [], rand := rnd } : World) = freshWorld data rnd s := rfl
  rw [e] at b1 b2 b3 b4 b5
  generalize cmdDD L "backup" pass false (freshWorld data rnd s) = bk at b1 b2 b3 b4 b5 ⊢
  have hw : restoreWorld bk rnd2 s2 =
      { json := JsonFile.doc (finalRecord false (L.b64Encode (base12 rnd))
          (L.hexEncode (L.sha256 data))),
        readOnly := false, saves := s2, input := some (sealedArtifact L pass data rnd),
        outScript := [], rand := rnd2 } := by
    unfold restoreWorld
    rw [b4, b2]
    rfl
  rw [hw, b1, b3, b5, r1, r2, r3]
  exact ⟨rfl, rfl, rfl, rfl, rfl⟩

/-- Witness of `backup_restore_digests_agree`: `hello world`, passphrase `p`. -/
theorem backup_restore_digests_agree_witness :
    (cmdDD toyLibs "restore" "p" true
      (restoreWorld (cmdDD toyLibs "backup" "p" false
        (freshWorld [104, 101, 108, 108, 111, 32, 119, 111, 114, 108, 100]
          [9, 9, 9, 9, 1, 2, 3, 4, 5, 6, 7, 8] 0)) [7, 7] 0)).err = none ∧
    (cmdDD toyLibs "restore" "p" true
      (restoreWorld (cmdDD toyLibs "backup" "p" false
        (freshWorld [104, 101, 108, 108, 111, 32, 119, 111, 114, 108, 100]
          [9, 9, 9, 9, 1, 2, 3, 4, 5, 6, 7, 8] 0)) [7, 7] 0)).artifact =
      [104, 101, 108, 108, 111, 32, 119, 111, 114, 108, 100] :=
  ⟨(backup_restore_digests_agree toyLibs "p" true
      [104, 101, 108, 108, 111, 32, 119, 111, 114, 108, 100]
      [9, 9, 9, 9, 1, 2, 3, 4, 5, 6, 7, 8] [7, 7] 0 0
      (fun n p => tagAEAD_open_seal n p) ⟨by decide, trivial⟩ (by decide)).2.2.1,
   (backup_restore_digests_agree toyLibs "p" true
      [104, 101, 108, 108, 111, 32, 119, 111, 114, 108, 100]
      [9, 9, 9, 9, 1, 2, 3, 4, 5, 6, 7, 8] [7, 7] 0 0
      (fun n p => tagAEAD_open_seal n p) ⟨by decide, trivial⟩ (by decide)).2.2.2.2⟩

end Djusb
